import Mathlib

/-!
Broker peering simulation, part 3 (`Worked_Example/peering3_API4.c`)

A shallow embedding of the main loop of the peering broker.  The broker is a
single-threaded event loop over ZeroMQ sockets; every iteration of
`while (!zsys_interrupted)` is called a *tick* below.

Modelling decisions:

* A frame is its list of bytes, a message (`zmsg_t`) the list of its frames.
* What a socket holds ready for reading is a queue in the `World`; what the
  broker hands to a socket is appended to the `sent` log, in send order.
  Messages reach the queues between ticks (`Step`); a tick is atomic
  with respect to arrivals.
* The `int` counters are mathematical integers: C leaves signed overflow and
  `atoi` of an unrepresentable value undefined, and neither is modelled.
* Where the C program aborts, or reads memory it does not own, the tick ends
  in a `Halt`; no state follows a `Halt`.
* The process-wide interruption flag is never raised.
-/

namespace Peering3

/-- One message frame (`zframe_t`): its bytes, each below 256. -/
abbrev Frame := List Nat

/-- One multipart message (`zmsg_t`): its frames, first frame first. -/
abbrev Msg := List Frame

/-- The sockets of `main`. -/
inductive Sock where
  | localfe
  | localbe
  | cloudfe
  | cloudbe
  | statefe
  | statebe
  | monitor
deriving DecidableEq

/-- A message as a ROUTER socket delivers it: the identity of the sending
connection, which the socket prefixes, then the one or more frames the sender
sent. -/
structure RouterMsg where
  identity : Frame
  first : Frame
  rest : List Frame
deriving DecidableEq

/-- The frames of a delivered ROUTER message, as `zmsg_recv` returns them. -/
def RouterMsg.frames (m : RouterMsg) : Msg :=
  m.identity :: m.first :: m.rest

/-- Ways a tick ends without reaching the bottom of the loop body. -/
inductive Halt where
  /-- `zmsg_recv` returned NULL and the loop was left by `break`. -/
  | interrupted
  /-- `zframe_data (NULL)`: the message has no first frame. -/
  | null_frame
  /-- `memcmp (.., 1)` reads one byte of a frame of size zero. -/
  | past_frame
  /-- `zmsg_wrap (msg, NULL)`: `zlist_pop` found the worker list empty. -/
  | null_worker
  /-- `strlen (NULL)`: `argv [peer]` with `peer == argc`. -/
  | null_peer
  /-- `zmsg_recv` returned NULL where the code does not test for it. -/
  | null_msg
  /-- `atoi (NULL)`: `zstr_recv` returned NULL. -/
  | null_string
  /-- The drain loop was given fewer iterations than it needs. -/
  | out_of_fuel
deriving DecidableEq

deriving instance DecidableEq for Except

/-- The command line: `argv [1]` and `argv [2] .. argv [argc - 1]`, each string
by its bytes before the terminating NUL. -/
structure Config where
  self : Frame
  peers : List Frame
deriving DecidableEq

/-- The number of arguments, `argc`. -/
def Config.argc (cfg : Config) : Nat := cfg.peers.length + 2

/-- The string `argv [i]` for `2 <= i <= argc`; `argv [argc]` is NULL. -/
def Config.argv (cfg : Config) (i : Nat) : Option Frame := cfg.peers.get? (i - 2)

/-- The variables of `main` the loop works on, the read queues of the sockets,
the numbers `random ()` is going to return, and what has been sent and printed
so far. -/
structure World where
  local_capacity : Int
  cloud_capacity : Int
  workers : List Frame
  localbe_in : List RouterMsg
  cloudbe_in : List RouterMsg
  statefe_in : List (Frame × Frame)
  monitor_in : List Frame
  localfe_in : List RouterMsg
  cloudfe_in : List RouterMsg
  random_in : List Nat
  sent : List (Sock × Msg)
  printed : List Frame
deriving DecidableEq

/-- The state at lines 183-185: no capacity, no idle worker, nothing received
and nothing sent yet. -/
def World.init (random_in : List Nat) : World :=
  { local_capacity := 0, cloud_capacity := 0, workers := [],
    localbe_in := [], cloudbe_in := [], statefe_in := [], monitor_in := [],
    localfe_in := [], cloudfe_in := [], random_in := random_in,
    sent := [], printed := [] }

/-! ## The library calls the loop makes -/

/-- `zmsg_first`: the first frame, NULL for a message without frames. -/
def zmsg_first (msg : Msg) : Option Frame := msg.head?

/-- `zmsg_unwrap`: pops the first frame and returns it; if the frame that
follows is empty, pops that one too. -/
def zmsg_unwrap (msg : Msg) : Option Frame × Msg :=
  match msg with
  | [] => (none, [])
  | frame :: [] => (some frame, [])
  | frame :: empty :: more =>
      if empty.length = 0 then (some frame, more) else (some frame, empty :: more)

/-- `zmsg_wrap`: pushes an empty frame, then `frame`, to the front. -/
def zmsg_wrap (msg : Msg) (frame : Frame) : Msg := frame :: [] :: msg

/-- `zmsg_pushmem`: pushes a frame holding the given bytes to the front. -/
def zmsg_pushmem (msg : Msg) (data : Frame) : Msg := data :: msg

/-- `zlist_append`: adds the item at the tail; a NULL item is not added. -/
def zlist_append (list : List Frame) (item : Option Frame) : List Frame :=
  match item with
  | none => list
  | some frame => list ++ [frame]

/-- `zlist_pop`: removes and returns the item at the head, NULL when empty. -/
def zlist_pop (list : List Frame) : Option Frame × List Frame :=
  match list with
  | [] => (none, [])
  | frame :: more => (some frame, more)

/-- `strlen` of a string given by its bytes before the NUL. -/
def strlen (s : Frame) : Nat := s.length

/-- `memcmp (a, b, n) == 0`: the first `n` bytes agree. -/
def memcmp_eq (a b : Frame) (n : Nat) : Bool := a.take n == b.take n

/-- The bytes of `WORKER_READY`, the string `"\001"`. -/
def WORKER_READY : Frame := [1]

/-- `isspace` in the C locale. -/
def isspace (c : Nat) : Bool := c == 32 || (9 ≤ c && c ≤ 13)

/-- `isdigit`. -/
def isdigit (c : Nat) : Bool := 48 ≤ c && c ≤ 57

/-- The digits at the front of a string, read in base ten onto `acc`. -/
def atoi_digits (acc : Nat) : List Nat → Nat
  | [] => acc
  | c :: cs => if isdigit c then atoi_digits (acc * 10 + (c - 48)) cs else acc

/-- The optional sign and the digits after it. -/
def atoi_signed : List Nat → Int
  | [] => 0
  | c :: cs =>
      if c = 45 then -((atoi_digits 0 cs : Nat) : Int)
      else if c = 43 then ((atoi_digits 0 cs : Nat) : Int)
      else ((atoi_digits 0 (c :: cs) : Nat) : Int)

/-- `atoi`: skips white space, reads an optional sign and then digits up to
the first byte that is not one. -/
def atoi : List Nat → Int
  | [] => 0
  | c :: cs => if isspace c then atoi cs else atoi_signed (c :: cs)

/-- The decimal digits of `n`, most significant first, as ASCII bytes; `fuel`
bounds the number of digits after the first. -/
def decimal (fuel n : Nat) : List Nat :=
  match fuel with
  | 0 => [48 + n % 10]
  | fuel + 1 => if n < 10 then [48 + n] else decimal fuel (n / 10) ++ [48 + n % 10]

/-- What `"%d"` prints for an `int`. -/
def sprintf_d (n : Int) : Frame :=
  if n < 0 then 45 :: decimal n.natAbs n.natAbs else decimal n.natAbs n.natAbs

/-- `RAND_MAX + 1`. -/
def RAND_CEILING : Nat := 2147483648

/-- `randof (num)`, which scales one result `r` of `random ()` into
`0 .. num - 1`; the scaling is done exactly here. -/
def randof (num r : Nat) : Nat := num * (r % RAND_CEILING) / RAND_CEILING

/-- Draws the next result of `random ()`. -/
def random (w : World) : Nat × World :=
  match w.random_in with
  | [] => (0, w)
  | r :: more => (r, { w with random_in := more })

/-- Whether a socket has a message to read. -/
def readable (w : World) : Sock → Bool
  | .localbe => !w.localbe_in.isEmpty
  | .cloudbe => !w.cloudbe_in.isEmpty
  | .statefe => !w.statefe_in.isEmpty
  | .monitor => !w.monitor_in.isEmpty
  | .localfe => !w.localfe_in.isEmpty
  | .cloudfe => !w.cloudfe_in.isEmpty
  | .statebe => false

/-- `zpoller_wait`: the first of the registered readers that has input, NULL
when none has. -/
def zpoller_wait (w : World) (readers : List Sock) : Option Sock :=
  readers.find? (readable w)

/-- `zmsg_recv`: takes the next message off a ROUTER socket; NULL when there
is none. -/
def zmsg_recv (w : World) : Sock → Option Msg × World
  | .localbe =>
      match w.localbe_in with
      | [] => (none, w)
      | m :: more => (some m.frames, { w with localbe_in := more })
  | .cloudbe =>
      match w.cloudbe_in with
      | [] => (none, w)
      | m :: more => (some m.frames, { w with cloudbe_in := more })
  | .localfe =>
      match w.localfe_in with
      | [] => (none, w)
      | m :: more => (some m.frames, { w with localfe_in := more })
  | .cloudfe =>
      match w.cloudfe_in with
      | [] => (none, w)
      | m :: more => (some m.frames, { w with cloudfe_in := more })
  | _ => (none, w)

/-- `zmsg_send`: hands the message to the socket. -/
def zmsg_send (w : World) (msg : Msg) (dest : Sock) : World :=
  { w with sent := w.sent ++ [(dest, msg)] }

/-- `zstr_recv` hands back a C string: the bytes of the frame before its
first NUL. -/
def c_string (frame : Frame) : Frame := frame.takeWhile (fun c => c != 0)

/-! ## The loop body -/

/-- The readers of `primary_poller` (line 192), in registration order. -/
def primary_readers : List Sock := [.localbe, .cloudbe, .statefe, .monitor]

/-- The readers of `secondary_poller` (line 264): `cloudfe` is passed only
when there is local capacity, otherwise the NULL ends the list after
`localfe`. -/
def secondary_readers (w : World) : List Sock :=
  if w.local_capacity ≠ 0 then [.localfe, .cloudfe] else [.localfe]

/-- Lines 208-230: takes the reply of a local worker or of a peer broker.
Returns `msg`, which is NULL when nothing is left to route. -/
def recv_reply (w : World) (primary_which : Option Sock) :
    Except Halt (Option Msg × World) :=
  if primary_which = some .localbe then
    match zmsg_recv w .localbe with
    | (none, _) => .error .interrupted
    | (some msg, w1) =>
        let unwrapped := zmsg_unwrap msg
        let w2 := { w1 with workers := zlist_append w1.workers unwrapped.1,
                            local_capacity := w1.local_capacity + 1 }
        match zmsg_first unwrapped.2 with
        | none => .error .null_frame
        | some frame =>
            if frame.length = 0 then .error .past_frame
            else if memcmp_eq frame WORKER_READY 1 then .ok (none, w2)
            else .ok (some unwrapped.2, w2)
  else if primary_which = some .cloudbe then
    match zmsg_recv w .cloudbe with
    | (none, _) => .error .interrupted
    | (some msg, w1) => .ok (some (zmsg_unwrap msg).2, w1)
  else .ok (none, w)

/-- Lines 232-238: the loop over `argv [2] .. argv [argc - 1]`, which runs
while `msg` is not NULL; `zmsg_send` sets `msg` to NULL. -/
def route_cloud (peers : List Frame) (msg : Option Msg) (w : World) :
    Except Halt (Option Msg × World) :=
  match peers with
  | [] => .ok (msg, w)
  | peer :: more =>
      match msg with
      | none => .ok (none, w)
      | some m =>
          match zmsg_first m with
          | none => .error .null_frame
          | some first =>
              if first.length = strlen peer && memcmp_eq first peer first.length then
                route_cloud more none (zmsg_send w m .cloudfe)
              else route_cloud more (some m) w

/-- Lines 240-241: what no peer took goes to the local frontend. -/
def route_local (msg : Option Msg) (w : World) : World :=
  match msg with
  | none => w
  | some m => zmsg_send w m .localfe

/-- Lines 231-241: the reply goes to the cloud frontend if its first frame is
the name of a peer, and to the local frontend if not. -/
def route_reply (peers : List Frame) (msg : Option Msg) (w : World) : Except Halt World :=
  match route_cloud peers msg w with
  | .error h => .error h
  | .ok (msg2, w2) => .ok (route_local msg2 w2)

/-- Lines 246-252: a state message sets `cloud_capacity`. -/
def recv_state (w : World) (primary_which : Option Sock) : Except Halt World :=
  if primary_which = some .statefe then
    match w.statefe_in with
    | [] => .error .null_string
    | (_, status) :: more =>
        .ok { w with statefe_in := more, cloud_capacity := atoi (c_string status) }
  else .ok w

/-- Lines 253-257: a monitor message is printed. -/
def recv_monitor (w : World) (primary_which : Option Sock) : World :=
  if primary_which = some .monitor then
    match w.monitor_in with
    | [] => w
    | status :: more =>
        { w with monitor_in := more, printed := w.printed ++ [c_string status] }
  else w

/-- Lines 283-294: places one request, on a local worker if there is local
capacity, else on a peer drawn at random. -/
def place_request (cfg : Config) (msg : Msg) (w : World) : Except Halt World :=
  if w.local_capacity ≠ 0 then
    match zlist_pop w.workers with
    | (none, _) => .error .null_worker
    | (some frame, more) =>
        .ok { zmsg_send w (zmsg_wrap msg frame) .localbe with
              workers := more, local_capacity := w.local_capacity - 1 }
  else
    let drawn := random w
    let peer := randof (cfg.argc - 2) drawn.1 + 2
    match cfg.argv peer with
    | none => .error .null_peer
    | some name => .ok (zmsg_send drawn.2 (zmsg_pushmem msg name) .cloudbe)

/-- One pass through the body of the loop at lines 263-295: the guard, the
wait with timeout zero, and the placing of the request read.  `none` says
that the loop was left, by its guard or because no frontend had a request. -/
def drain_once (cfg : Config) (w : World) : Except Halt (Option World) :=
  if w.local_capacity + w.cloud_capacity = 0 then .ok none
  else
    match zpoller_wait w (secondary_readers w) with
    | none => .ok none
    | some secondary_which =>
        match zmsg_recv w secondary_which with
        | (none, _) => .error .null_msg
        | (some msg, w1) =>
            match place_request cfg msg w1 with
            | .error h => .error h
            | .ok w2 => .ok (some w2)

/-- Lines 263-295: the loop that routes client requests while there is
capacity.  Every pass that does not leave the loop reads one request, so
`fuel` above the number of pending requests is never used up. -/
def secondary_drain (cfg : Config) (fuel : Nat) (w : World) : Except Halt World :=
  match fuel with
  | 0 => .error .out_of_fuel
  | fuel + 1 =>
      match drain_once cfg w with
      | .error h => .error h
      | .ok none => .ok w
      | .ok (some w2) => secondary_drain cfg fuel w2

/-- Lines 299-304: the capacity is published if it changed. -/
def broadcast (cfg : Config) (previous : Int) (w : World) : World :=
  if w.local_capacity ≠ previous then
    zmsg_send w [cfg.self, sprintf_d w.local_capacity] .statebe
  else w

/-- Lines 205-257: everything between the primary wait and the drain. -/
def primary_dispatch (cfg : Config) (w : World) (primary_which : Option Sock) :
    Except Halt World :=
  match recv_reply w primary_which with
  | .error h => .error h
  | .ok (msg, w1) =>
      match route_reply cfg.peers msg w1 with
      | .error h => .error h
      | .ok w2 =>
          match recv_state w2 primary_which with
          | .error h => .error h
          | .ok w3 => .ok (recv_monitor w3 primary_which)

/-- The number of requests waiting on the two frontends. -/
def pending (w : World) : Nat := w.localfe_in.length + w.cloudfe_in.length

/-- One iteration of `while (!zsys_interrupted)`, lines 194-305.  The primary
wait has no timeout when `local_capacity` is zero: with no reader ready the
broker then stays in the wait and nothing changes. -/
def tick (cfg : Config) (w : World) : Except Halt World :=
  match zpoller_wait w primary_readers with
  | none =>
      if w.local_capacity = 0 then .ok w
      else
        match secondary_drain cfg (pending w + 1) w with
        | .error h => .error h
        | .ok w2 => .ok (broadcast cfg w.local_capacity w2)
  | some primary_which =>
      match primary_dispatch cfg w (some primary_which) with
      | .error h => .error h
      | .ok w1 =>
          match secondary_drain cfg (pending w1 + 1) w1 with
          | .error h => .error h
          | .ok w2 => .ok (broadcast cfg w.local_capacity w2)

/-- What happens to the broker: a message reaches one of its sockets, or the
loop runs one iteration. -/
inductive Step where
  | worker (m : RouterMsg)
  | peer_reply (m : RouterMsg)
  | state (peer status : Frame)
  | monitor (status : Frame)
  | client (m : RouterMsg)
  | peer_request (m : RouterMsg)
  | tick
deriving DecidableEq

/-- One step of the broker and its sockets. -/
def step (cfg : Config) (w : World) : Step → Except Halt World
  | .worker m => .ok { w with localbe_in := w.localbe_in ++ [m] }
  | .peer_reply m => .ok { w with cloudbe_in := w.cloudbe_in ++ [m] }
  | .state peer status => .ok { w with statefe_in := w.statefe_in ++ [(peer, status)] }
  | .monitor status => .ok { w with monitor_in := w.monitor_in ++ [status] }
  | .client m => .ok { w with localfe_in := w.localfe_in ++ [m] }
  | .peer_request m => .ok { w with cloudfe_in := w.cloudfe_in ++ [m] }
  | .tick => tick cfg w

/-- A sequence of steps; it stops at the first `Halt`. -/
def run (cfg : Config) (w : World) : List Step → Except Halt World
  | [] => .ok w
  | s :: more =>
      match step cfg w s with
      | .error h => .error h
      | .ok w1 => run cfg w1 more


/-! ## Notions the statements below are written in -/

/-- The idle-worker queue has as many entries as `local_capacity` says. -/
def Balanced (w : World) : Prop := w.local_capacity = (w.workers.length : Int)

/-- What is left of a delivered ROUTER message once `zmsg_unwrap` has taken
the identity and the empty delimiter, if there is one. -/
def RouterMsg.body (m : RouterMsg) : Msg :=
  if m.first.length = 0 then m.rest else m.first :: m.rest

/-- The message the local backend delivers when the worker task with the
given identity announces itself (lines 84-85): the REQ socket of the worker
puts an empty delimiter before the frame `WORKER_READY`. -/
def ready (identity : Frame) : RouterMsg :=
  { identity := identity, first := [], rest := [WORKER_READY] }

/-- The message a frontend delivers for a request a REQ client sent:
identity, empty delimiter, payload. -/
def request (identity payload : Frame) : RouterMsg :=
  { identity := identity, first := [], rest := [payload] }

/-- A broker named `A` with the one peer `B`. -/
def cfgAB : Config := { self := [65], peers := [[66]] }

/-- Two workers announce themselves, then one client sends a request; the
loop runs after each arrival. -/
def two_ready_one_request : List Step :=
  [.worker (ready [7]), .tick, .worker (ready [8]), .tick,
   .client (request [0, 3] [52, 50]), .tick]

/-- The state `two_ready_one_request` leads to from the initial state. -/
def after_two_ready_one_request : World :=
  { World.init [] with
    local_capacity := 1, workers := [[8]],
    sent := [(.statebe, [[65], [49]]), (.statebe, [[65], [50]]),
             (.localbe, [[7], [], [0, 3], [], [52, 50]]), (.statebe, [[65], [49]])] }

/-- A request as the cloud frontend delivers it: the name of the peer that
forwarded it, then the envelope of the client of that peer. -/
def peer_request_B : RouterMsg :=
  { identity := [66], first := [0, 9], rest := [[], [53, 49]] }

/-- One worker announces itself and the loop runs; then a client request and a
request forwarded by peer `B` both arrive before the next tick. -/
def both_ready_steps : List Step :=
  [.worker (ready [7]), .tick, .client (request [0, 3] [52, 50]),
   .peer_request peer_request_B]

/-- The state `both_ready_steps` leads to: one idle worker, one request ready
on each frontend. -/
def both_ready : World :=
  { World.init [] with
    local_capacity := 1, workers := [[7]],
    localfe_in := [request [0, 3] [52, 50]], cloudfe_in := [peer_request_B],
    sent := [(.statebe, [[65], [49]])] }

/-- A message of worker `7` whose only frame is the two bytes `"\001A"`. -/
def ready_prefixed : RouterMsg :=
  { identity := [7], first := [], rest := [[1, 65]] }

/-- Broker `A` with no idle worker, a cloud capacity of three and one client
request waiting on the local frontend. -/
def overflow_world : World :=
  { World.init [5] with cloud_capacity := 3, localfe_in := [request [0, 3] [52, 50]] }

/-- The initial state with the READY of worker `7` waiting on the local
backend. -/
def one_ready_waiting : World :=
  { World.init [] with localbe_in := [ready [7]] }

/-- The state after the tick that reads that READY. -/
def one_ready_read : World :=
  { World.init [] with
    local_capacity := 1, workers := [[7]], sent := [(.statebe, [[65], [49]])] }

/-- No state message has been ingested with a negative capacity, and none
that waits on the state frontend carries one. -/
def CloudNonneg (w : World) : Prop :=
  0 ≤ w.cloud_capacity ∧ ∀ st ∈ w.statefe_in, 0 ≤ atoi (c_string st.2)

/-- The capacity frame of a state message, if the step is the arrival of one,
parses to a number that is not negative. -/
def StateNonneg : Step → Prop
  | .state _ status => 0 ≤ atoi (c_string status)
  | _ => True

/-- Peer `B` publishes a capacity of three and the loop runs. -/
def state_three_steps : List Step := [.state [66] [51], .tick]

/-- The state `state_three_steps` leads to from the initial state. -/
def after_state_three : World := { World.init [] with cloud_capacity := 3 }

/-- The state message `("B", "3")` waits on the state frontend of a broker
that has one idle worker. -/
def state_waiting : World :=
  { World.init [] with
    local_capacity := 1, workers := [[7]], cloud_capacity := 5,
    statefe_in := [([66], [51])] }

/-- The READY messages of the workers with the given identities. -/
def readies (ids : List Frame) : List RouterMsg := ids.map ready

/-- The capacity broadcasts of `n` ticks that each raise `local_capacity` by
one, starting above `start`. -/
def ready_broadcasts (cfg : Config) (start : Int) (n : Nat) : List (Sock × Msg) :=
  (List.range n).map
    (fun (i : Nat) => (Sock.statebe, [cfg.self, sprintf_d (start + (i : Int) + 1)]))

/-- The initial state with the READY messages of workers `7` and `8` waiting
on the local backend. -/
def two_ready_waiting : World :=
  { World.init [] with localbe_in := readies [[7], [8]] }

/-- The states the broker passes through: the initial state, the states
between steps, and inside a tick the state after the primary dispatch and the
state after each pass of the drain loop. -/
inductive Reachable (cfg : Config) : World → Prop where
  | init (random_in : List Nat) : Reachable cfg (World.init random_in)
  | step {w w1 : World} (s : Step) :
      Reachable cfg w → step cfg w s = .ok w1 → Reachable cfg w1
  | dispatch {w w1 : World} :
      Reachable cfg w →
      primary_dispatch cfg w (zpoller_wait w primary_readers) = .ok w1 → Reachable cfg w1
  | pass {w w1 : World} :
      Reachable cfg w → drain_once cfg w = .ok (some w1) → Reachable cfg w1

/-- One idle worker, nothing on the local frontend, one request forwarded by
peer `B` on the cloud frontend. -/
def cloud_only_steps : List Step :=
  [.worker (ready [7]), .tick, .peer_request peer_request_B]

/-- The state `cloud_only_steps` leads to. -/
def cloud_only : World :=
  { World.init [] with
    local_capacity := 1, workers := [[7]], cloudfe_in := [peer_request_B],
    sent := [(.statebe, [[65], [49]])] }

/-- A receiving broker with the state message `("B", "%d" of 120)` waiting. -/
def capacity_120_waiting : World :=
  { World.init [] with statefe_in := [([66], sprintf_d 120)] }

/-- Peer `B` publishes the capacity `"-1"`, a client request arrives, and the
loop runs once. -/
def negative_cloud_steps : List Step :=
  [.state [66] [45, 49], .client (request [0, 3] [52, 50]), .tick]

/-- The state in which the drain of that tick begins: no local capacity, a
cloud capacity of `-1`, one request on the local frontend. -/
def negative_cloud : World :=
  { World.init [5] with cloud_capacity := -1, localfe_in := [request [0, 3] [52, 50]] }

/-- The state in which that drain ends: the request went to the cloud
backend. -/
def negative_cloud_drained : World :=
  { World.init [] with
    cloud_capacity := -1, sent := [(.cloudbe, [[66], [0, 3], [], [52, 50]])] }

/-- No capacity at all, and one client request waiting on the local
frontend. -/
def zero_sum_world : World :=
  { World.init [] with localfe_in := [request [0, 3] [52, 50]] }

/-- A cloud capacity of one, no idle worker, two client requests on the local
frontend, and a monitor message that ends the primary wait. -/
def two_overflow_waiting : World :=
  { World.init [5, 6] with
    cloud_capacity := 1, monitor_in := [[111, 107]],
    localfe_in := [request [0, 3] [52, 50], request [0, 4] [52, 51]] }

/-- The state after the tick from `two_overflow_waiting`: both requests went
to the cloud backend and the cloud capacity is still one. -/
def two_overflow_forwarded : World :=
  { World.init [] with
    cloud_capacity := 1, printed := [[111, 107]],
    sent := [(.cloudbe, [[66], [0, 3], [], [52, 50]]),
             (.cloudbe, [[66], [0, 4], [], [52, 51]])] }

/-- The state in which the drain of the tick from `two_overflow_waiting`
begins: the monitor message has been printed. -/
def two_overflow_dispatched : World :=
  { two_overflow_waiting with monitor_in := [], printed := [[111, 107]] }

end Peering3

/-!
Lazy Pirate client (`Pirates/lpclient.c`)

The client blocks in one place only, the `zmq_poll` at line 31.  The model
runs the program from one return of that poll to the next call of it:
`on_poll` is the body of the inner loop for one poll result, followed by
whatever the outer loop does before the client polls again.  The poll is
never interrupted and `zstr_recv` never returns NULL.  What the program
prints is left out.
-/

namespace LazyPirate

open Peering3

/-- The number of tries before the client abandons. -/
def REQUEST_RETRIES : Int := 3

/-- What a poll returns: the socket has a reply, or the timeout ran out. -/
inductive Poll where
  | reply (frame : Frame)
  | timeout
deriving DecidableEq

/-- The variables of `main`, the number of the socket in use (it goes up by
one each time the socket is destroyed and created again), what has been sent
on which socket, and whether the program is still in its loop. -/
structure Client where
  sequence : Int
  retries_left : Int
  request : Frame
  socket : Nat
  sent : List (Nat × Frame)
  running : Bool
deriving DecidableEq

/-- The state at lines 19-20, before the loop. -/
def Client.init : Client :=
  { sequence := 0, retries_left := REQUEST_RETRIES, request := [], socket := 0,
    sent := [], running := true }

/-- The head of the outer loop, lines 21-27: if tries are left the next
sequence number is printed into `request` and sent, and the client waits for
the reply; otherwise the loop is left. -/
def next_request (c : Client) : Client :=
  if c.retries_left ≠ 0 then
    { c with sequence := c.sequence + 1, request := sprintf_d (c.sequence + 1),
             sent := c.sent ++ [(c.socket, sprintf_d (c.sequence + 1))] }
  else { c with running := false }

/-- Lines 40-70 for one result of the poll.  A reply with the current
sequence number restores the tries and ends the inner loop; any other reply
is reported and the client polls again; a timeout takes one try away and
either ends the inner loop (none left) or sends the request again on a new
socket. -/
def on_poll (c : Client) : Poll → Client
  | .reply frame =>
      if atoi (c_string frame) = c.sequence then
        next_request { c with retries_left := REQUEST_RETRIES }
      else c
  | .timeout =>
      if c.retries_left - 1 = 0 then
        next_request { c with retries_left := c.retries_left - 1 }
      else
        { c with retries_left := c.retries_left - 1, socket := c.socket + 1,
                 sent := c.sent ++ [(c.socket + 1, c.request)] }

/-- The client from program start to its first poll. -/
def start : Client := next_request Client.init

/-- The client over a sequence of poll results; once the loop is left the
program has ended and nothing more happens. -/
def run (c : Client) : List Poll → Client
  | [] => c
  | e :: more => if c.running then run (on_poll c e) more else c

/-- The number of timeouts since the last valid reply, or since `count` was
taken, along the poll results the running client gets: a timeout adds one, a
reply whose number is the current sequence number starts from zero again. -/
def timeouts_since_valid (c : Client) (count : Nat) : List Poll → Nat
  | [] => count
  | e :: more =>
      if c.running then
        match e with
        | .timeout => timeouts_since_valid (on_poll c e) (count + 1) more
        | .reply frame =>
            if atoi (c_string frame) = c.sequence then
              timeouts_since_valid (on_poll c e) 0 more
            else timeouts_since_valid (on_poll c e) count more
      else count

/-- The retry budget and the timeout count fit together. -/
def Budget (c : Client) (count : Nat) : Prop :=
  (c.running = true ∧ count ≤ 2 ∧ c.retries_left = REQUEST_RETRIES - (count : Int)) ∨
    (c.running = false ∧ count = 3 ∧ c.retries_left = 0)

/-- A timeout, the reply `"1"`, then three timeouts. -/
def lost_server : List Poll := [.timeout, .reply [49], .timeout, .timeout, .timeout]

end LazyPirate

/-!
Simple Pirate broker (`Pirates/spqueue.c`, `Pirates/spqueue_API4.c`)

Both programs keep a queue of idle workers between a frontend and a backend
ROUTER socket.  `spqueue.c` polls with `zmq_poll` and may handle the backend
and the frontend in one iteration; `spqueue_API4.c` polls with `zpoller_wait`
and handles the one socket it reports.  Both wait without timeout: with no
polled socket readable nothing changes.
-/

namespace SimplePirate

open Peering3

/-- The two sockets of the broker. -/
inductive Side where
  | frontend
  | backend
deriving DecidableEq

/-- The worker queue, the read queues of the two sockets and what has been
sent so far. -/
structure Queue where
  workers : List Frame
  backend_in : List RouterMsg
  frontend_in : List RouterMsg
  sent : List (Side × Msg)
deriving DecidableEq

/-- The state before the loop: nothing queued, received or sent. -/
def Queue.init : Queue :=
  { workers := [], backend_in := [], frontend_in := [], sent := [] }

/-- Whether the frontend is among the polled sockets: `zlist_size (workers)`
is not zero. -/
def polls_frontend (q : Queue) : Bool := q.workers.length != 0

/-- The body of `if (items [0].revents & ZMQ_POLLIN)` in `spqueue.c`, lines
37-51: the worker is queued and its message forwarded to the client unless
it begins with `WORKER_READY`. -/
def on_backend (q : Queue) : Except Halt Queue :=
  match q.backend_in with
  | [] => .error .interrupted
  | m :: more =>
      let unwrapped := zmsg_unwrap m.frames
      let q1 := { q with backend_in := more,
                         workers := zlist_append q.workers unwrapped.1 }
      match zmsg_first unwrapped.2 with
      | none => .error .null_frame
      | some frame =>
          if frame.length = 0 then .error .past_frame
          else if memcmp_eq frame WORKER_READY 1 then .ok q1
          else .ok { q1 with sent := q1.sent ++ [(Side.frontend, unwrapped.2)] }

/-- The body of `if (items [1].revents & ZMQ_POLLIN)` in `spqueue.c`, lines
52-59: the request is wrapped with the worker popped from the queue and sent
to the backend. -/
def on_frontend (q : Queue) : Except Halt Queue :=
  match q.frontend_in with
  | [] => .ok q
  | r :: more =>
      match zlist_pop q.workers with
      | (none, _) => .error .null_worker
      | (some worker, rest) =>
          .ok { q with frontend_in := more, workers := rest,
                       sent := q.sent ++ [(Side.backend, zmsg_wrap r.frames worker)] }

/-- One iteration of the loop of `spqueue.c`, lines 26-60.  `zmq_poll` looks
at the backend and, if the worker queue is not empty, at the frontend, and
returns when one of them is readable; both `revents` are then tested in
turn. -/
def spqueue_tick (q : Queue) : Except Halt Queue :=
  let backend_ready := !q.backend_in.isEmpty
  let frontend_ready := polls_frontend q && !q.frontend_in.isEmpty
  if !backend_ready && !frontend_ready then .ok q
  else
    match (if backend_ready then on_backend q else .ok q) with
    | .error h => .error h
    | .ok q1 => if frontend_ready then on_frontend q1 else .ok q1

/-- The reader `zpoller_wait` reports in `spqueue_API4.c`, lines 19-22: the
poller is built over the backend and, if the worker queue is not empty, the
frontend, and reports the first that is readable. -/
def which (q : Queue) : Option Side :=
  if !q.backend_in.isEmpty then some .backend
  else if polls_frontend q && !q.frontend_in.isEmpty then some .frontend
  else none

/-- One iteration of the loop of `spqueue_API4.c`, lines 18-49: the message
is read from the socket reported, a worker message queues the worker and is
forwarded unless it begins with `WORKER_READY`, a client request is wrapped
with the worker popped from the queue. -/
def spqueue_API4_tick (q : Queue) : Except Halt Queue :=
  match which q with
  | none => .ok q
  | some .backend => on_backend q
  | some .frontend =>
      match q.frontend_in with
      | [] => .error .interrupted
      | r :: more =>
          match zlist_pop q.workers with
          | (none, _) => .error .null_worker
          | (some worker, rest) =>
              .ok { q with frontend_in := more, workers := rest,
                           sent := q.sent ++ [(Side.backend, zmsg_wrap r.frames worker)] }

/-- Workers `7` and `8` are idle, a client request waits on the frontend and
the reply of worker `9` on the backend. -/
def busy_queue : Queue :=
  { workers := [[7], [8]],
    backend_in := [{ identity := [9], first := [], rest := [[0, 3], [], [79, 75]] }],
    frontend_in := [request [0, 4] [52, 50]], sent := [] }

end SimplePirate

namespace Peering3

/-- Peer `B` publishes a capacity of three and the loop runs; then the READY
of worker `7` and two client requests arrive before the next tick. -/
def ready_and_requests_steps : List Step :=
  [.state [66] [51], .tick, .worker (ready [7]),
   .client (request [0, 3] [52, 50]), .client (request [0, 4] [52, 51])]

/-- The state `ready_and_requests_steps` leads to: no local capacity, a cloud
capacity of three, a READY on the local backend and two requests on the local
frontend. -/
def ready_and_requests : World :=
  { World.init [5] with
    cloud_capacity := 3, localbe_in := [ready [7]],
    localfe_in := [request [0, 3] [52, 50], request [0, 4] [52, 51]] }

/-- The state after the tick from `ready_and_requests`: the first request
went to worker `7` on the local backend, the second to peer `B`. -/
def ready_and_requests_served : World :=
  { World.init [] with
    cloud_capacity := 3,
    sent := [(.localbe, [[7], [], [0, 3], [], [52, 50]]),
             (.cloudbe, [[66], [0, 4], [], [52, 51]])] }

/-! ## What each part of the loop body leaves alone -/

theorem zmsg_unwrap_frames (m : RouterMsg) :
    zmsg_unwrap m.frames = (some m.identity, m.body) := by
  unfold RouterMsg.frames RouterMsg.body zmsg_unwrap
  split <;> simp_all
  split <;> simp_all

theorem zmsg_recv_vars (w w1 : World) (s : Sock) (msg : Option Msg)
    (h : zmsg_recv w s = (msg, w1)) :
    w1.local_capacity = w.local_capacity ∧ w1.cloud_capacity = w.cloud_capacity ∧
      w1.workers = w.workers ∧ w1.sent = w.sent ∧ w1.random_in = w.random_in := by
  cases s <;> simp only [zmsg_recv] at h <;> (try split at h) <;>
    simp only [Prod.mk.injEq] at h <;> obtain ⟨-, rfl⟩ := h <;> simp

/-- The reply step on a readable local backend, spelled out. -/
theorem recv_reply_localbe (w : World) (m : RouterMsg) (more : List RouterMsg)
    (hq : w.localbe_in = m :: more) :
    recv_reply w (some .localbe) =
      match zmsg_first m.body with
      | none => .error .null_frame
      | some frame =>
          if frame.length = 0 then .error .past_frame
          else if memcmp_eq frame WORKER_READY 1 then
            .ok (none, { w with localbe_in := more, workers := w.workers ++ [m.identity], local_capacity := w.local_capacity + 1 })
          else
            .ok (some m.body, { w with localbe_in := more, workers := w.workers ++ [m.identity], local_capacity := w.local_capacity + 1 }) := by
  simp only [recv_reply, zmsg_recv, hq, zmsg_unwrap_frames, zlist_append, if_true]

/-- The reply step on a readable cloud backend, spelled out. -/
theorem recv_reply_cloudbe (w : World) (m : RouterMsg) (more : List RouterMsg)
    (hq : w.cloudbe_in = m :: more) :
    recv_reply w (some .cloudbe) = .ok (some m.body, { w with cloudbe_in := more }) := by
  simp [recv_reply, zmsg_recv, hq, zmsg_unwrap_frames]

theorem recv_reply_balanced (w w1 : World) (pw : Option Sock) (msg : Option Msg)
    (h : recv_reply w pw = .ok (msg, w1)) (hb : Balanced w) : Balanced w1 := by
  by_cases h1 : pw = some .localbe
  · subst h1
    cases hq : w.localbe_in with
    | nil => simp [recv_reply, zmsg_recv, hq] at h
    | cons m more =>
        rw [recv_reply_localbe w m more hq] at h
        unfold Balanced at hb ⊢
        split at h
        · simp at h
        · split at h
          · simp at h
          · split at h <;> simp at h <;> obtain ⟨-, rfl⟩ := h <;> simp [hb]
  · by_cases h2 : pw = some .cloudbe
    · subst h2
      cases hq : w.cloudbe_in with
      | nil => simp [recv_reply, zmsg_recv, hq] at h
      | cons m more =>
          rw [recv_reply_cloudbe w m more hq] at h
          simp at h
          obtain ⟨-, rfl⟩ := h
          exact hb
    · simp [recv_reply, h1, h2] at h
      obtain ⟨-, rfl⟩ := h
      exact hb


theorem frame_matches_iff (first peer : Frame) :
    (decide (first.length = strlen peer) && memcmp_eq first peer first.length) = true ↔
      first = peer := by
  unfold strlen memcmp_eq
  constructor
  · intro h
    simp only [Bool.and_eq_true, decide_eq_true_eq, beq_iff_eq] at h
    obtain ⟨hl, ht⟩ := h
    rw [List.take_length] at ht
    rw [hl, List.take_length] at ht
    exact ht
  · rintro rfl
    simp

theorem route_cloud_none (peers : List Frame) (w : World) :
    route_cloud peers none w = .ok (none, w) := by
  cases peers <;> rfl

theorem route_cloud_cons (peers : List Frame) (hd : Frame) (tl : List Frame) (w : World) :
    route_cloud peers (some (hd :: tl)) w =
      if hd ∈ peers then .ok (none, zmsg_send w (hd :: tl) .cloudfe)
      else .ok (some (hd :: tl), w) := by
  induction peers with
  | nil => simp [route_cloud]
  | cons peer more ih =>
      simp only [route_cloud, zmsg_first, List.head?_cons]
      by_cases hp : hd = peer
      · have := (frame_matches_iff hd peer).2 hp
        rw [if_pos this, route_cloud_none]
        simp [hp]
      · have : ¬ ((decide (hd.length = strlen peer) && memcmp_eq hd peer hd.length) = true) :=
          fun h => hp ((frame_matches_iff hd peer).1 h)
        rw [if_neg this, ih]
        simp [hp]

theorem route_reply_none (peers : List Frame) (w : World) :
    route_reply peers none w = .ok w := by
  simp [route_reply, route_cloud_none, route_local]

theorem route_reply_cons (peers : List Frame) (hd : Frame) (tl : List Frame) (w : World) :
    route_reply peers (some (hd :: tl)) w =
      .ok (zmsg_send w (hd :: tl) (if hd ∈ peers then Sock.cloudfe else Sock.localfe)) := by
  simp only [route_reply, route_cloud_cons]
  by_cases hp : hd ∈ peers <;> simp [hp, route_local]


theorem route_reply_vars (peers : List Frame) (msg : Option Msg) (w w1 : World)
    (h : route_reply peers msg w = .ok w1) :
    ∃ out, w1 = { w with sent := w.sent ++ out } ∧
      ∀ p ∈ out, p.1 = Sock.cloudfe ∨ p.1 = Sock.localfe := by
  cases msg with
  | none =>
      rw [route_reply_none] at h
      injection h with h
      exact ⟨[], by simp [← h], by simp⟩
  | some m =>
      cases m with
      | nil =>
          cases peers with
          | nil =>
              simp [route_reply, route_cloud, route_local, zmsg_send] at h
              exact ⟨[(Sock.localfe, [])], by simp [← h], by simp⟩
          | cons p ps => simp [route_reply, route_cloud, zmsg_first] at h
      | cons hd tl =>
          rw [route_reply_cons] at h
          injection h with h
          refine ⟨[(if hd ∈ peers then Sock.cloudfe else Sock.localfe, hd :: tl)], ?_, ?_⟩
          · simp [← h, zmsg_send]
          · intro p hp
            simp at hp
            subst hp
            by_cases hm : hd ∈ peers <;> simp [hm]

theorem recv_state_balanced (w w1 : World) (pw : Option Sock)
    (h : recv_state w pw = .ok w1) (hb : Balanced w) : Balanced w1 := by
  unfold recv_state at h
  split at h
  · split at h
    · simp at h
    · injection h with h
      subst h
      exact hb
  · injection h with h
    subst h
    exact hb

theorem recv_monitor_balanced (w : World) (pw : Option Sock) (hb : Balanced w) :
    Balanced (recv_monitor w pw) := by
  unfold recv_monitor
  split
  · split
    · exact hb
    · exact hb
  · exact hb

theorem primary_dispatch_balanced (cfg : Config) (w w1 : World) (pw : Option Sock)
    (h : primary_dispatch cfg w pw = .ok w1) (hb : Balanced w) : Balanced w1 := by
  unfold primary_dispatch at h
  split at h
  · simp at h
  · rename_i msg wa hr
    split at h
    · simp at h
    · rename_i wb hrr
      split at h
      · simp at h
      · rename_i wc hs
        injection h with h
        subst h
        apply recv_monitor_balanced
        apply recv_state_balanced _ _ _ hs
        obtain ⟨out, rfl, -⟩ := route_reply_vars _ _ _ _ hrr
        exact (recv_reply_balanced _ _ _ _ hr hb : Balanced wa)

theorem place_request_balanced (cfg : Config) (msg : Msg) (w w1 : World)
    (h : place_request cfg msg w = .ok w1) (hb : Balanced w) : Balanced w1 := by
  unfold place_request at h
  unfold Balanced at hb ⊢
  split at h
  · cases hw : w.workers with
    | nil => simp [zlist_pop, hw] at h
    | cons frame more =>
        simp [zlist_pop, hw, zmsg_send] at h
        subst h
        simp [hb, hw]
  · simp only at h
    split at h
    · simp at h
    · injection h with h
      subst h
      unfold random
      split <;> simpa [zmsg_send] using hb

theorem drain_once_balanced (cfg : Config) (w w1 : World)
    (h : drain_once cfg w = .ok (some w1)) (hb : Balanced w) : Balanced w1 := by
  unfold drain_once at h
  split at h
  · simp at h
  · split at h
    · simp at h
    · split at h
      · simp at h
      · rename_i sw msg wa hrecv
        split at h
        · simp at h
        · rename_i wb hp
          simp at h
          subst h
          apply place_request_balanced _ _ _ _ hp
          obtain ⟨h1, -, h3, -, -⟩ := zmsg_recv_vars _ _ _ _ hrecv
          unfold Balanced at hb ⊢
          rw [h1, h3, hb]

theorem secondary_drain_balanced (cfg : Config) (fuel : Nat) (w w1 : World)
    (h : secondary_drain cfg fuel w = .ok w1) (hb : Balanced w) : Balanced w1 := by
  induction fuel generalizing w with
  | zero => simp [secondary_drain] at h
  | succ n ih =>
      unfold secondary_drain at h
      split at h
      · simp at h
      · injection h with h
        subst h
        exact hb
      · rename_i wa hd
        exact ih _ h (drain_once_balanced _ _ _ hd hb)

theorem broadcast_balanced (cfg : Config) (previous : Int) (w : World) (hb : Balanced w) :
    Balanced (broadcast cfg previous w) := by
  unfold broadcast
  split
  · exact hb
  · exact hb

theorem tick_balanced (cfg : Config) (w w1 : World)
    (h : tick cfg w = .ok w1) (hb : Balanced w) : Balanced w1 := by
  unfold tick at h
  split at h
  · split at h
    · injection h with h
      subst h
      exact hb
    · split at h
      · simp at h
      · rename_i wa hd
        injection h with h
        subst h
        exact broadcast_balanced _ _ _ (secondary_drain_balanced _ _ _ _ hd hb)
  · split at h
    · simp at h
    · rename_i wa hp
      split at h
      · simp at h
      · rename_i wb hd
        injection h with h
        subst h
        exact broadcast_balanced _ _ _
          (secondary_drain_balanced _ _ _ _ hd (primary_dispatch_balanced _ _ _ _ hp hb))

theorem step_balanced (cfg : Config) (w w1 : World) (s : Step)
    (h : step cfg w s = .ok w1) (hb : Balanced w) : Balanced w1 := by
  cases s <;> simp only [step] at h
  case tick => exact tick_balanced _ _ _ h hb
  all_goals
    injection h with h
    subst h
    exact hb

/-- A property that every successful step keeps holds after every successful
run. -/
theorem run_keeps (cfg : Config) (P : World → Prop)
    (hstep : ∀ w w1 s, step cfg w s = .ok w1 → P w → P w1)
    (steps : List Step) (w w1 : World) (h : run cfg w steps = .ok w1) (hP : P w) : P w1 := by
  induction steps generalizing w with
  | nil =>
      simp [run] at h
      subst h
      exact hP
  | cons s more ih =>
      unfold run at h
      split at h
      · simp at h
      · rename_i wa hs
        exact ih _ h (hstep _ _ _ hs hP)


theorem zmsg_recv_pending (w w1 : World) (s : Sock) (msg : Msg)
    (hs : s = Sock.localfe ∨ s = Sock.cloudfe)
    (h : zmsg_recv w s = (some msg, w1)) : pending w1 + 1 = pending w := by
  rcases hs with rfl | rfl <;> simp only [zmsg_recv] at h <;> split at h <;>
    simp only [Prod.mk.injEq] at h
  · simp at h
  · rename_i m more hq
    obtain ⟨-, rfl⟩ := h
    simp [pending, hq]
    omega
  · simp at h
  · rename_i m more hq
    obtain ⟨-, rfl⟩ := h
    simp [pending, hq]
    omega

theorem place_request_pending (cfg : Config) (msg : Msg) (w w1 : World)
    (h : place_request cfg msg w = .ok w1) : pending w1 = pending w := by
  unfold place_request at h
  split at h
  · split at h
    · simp at h
    · injection h with h
      subst h
      rfl
  · simp only at h
    split at h
    · simp at h
    · injection h with h
      subst h
      unfold random
      split <;> rfl

theorem zpoller_wait_secondary (w : World) (s : Sock)
    (h : zpoller_wait w (secondary_readers w) = some s) :
    s = Sock.localfe ∨ s = Sock.cloudfe := by
  unfold zpoller_wait secondary_readers at h
  have := List.mem_of_find?_eq_some h
  split at this <;> simp at this <;> tauto

theorem drain_once_pending (cfg : Config) (w w1 : World)
    (h : drain_once cfg w = .ok (some w1)) : pending w1 + 1 = pending w := by
  unfold drain_once at h
  split at h
  · simp at h
  · split at h
    · simp at h
    · rename_i sw hpoll
      split at h
      · simp at h
      · rename_i msg wa hrecv
        split at h
        · simp at h
        · rename_i wb hp
          simp at h
          subst h
          rw [place_request_pending _ _ _ _ hp]
          exact zmsg_recv_pending _ _ _ _ (zpoller_wait_secondary _ _ hpoll) hrecv

/-- The drain loop never wants more passes than there are pending requests,
plus the one that leaves it. -/
theorem secondary_drain_fuel (cfg : Config) (fuel : Nat) (w : World)
    (hf : pending w < fuel) : secondary_drain cfg fuel w ≠ .error .out_of_fuel := by
  induction fuel generalizing w with
  | zero => omega
  | succ n ih =>
      unfold secondary_drain
      split
      · rename_i h hd
        intro hh
        injection hh with hh
        subst hh
        unfold drain_once at hd
        split at hd
        · simp at hd
        · split at hd
          · simp at hd
          · split at hd
            · simp at hd
            · rename_i msg wa hrecv
              split at hd
              · rename_i h2 hp
                simp at hd
                subst hd
                unfold place_request at hp
                split at hp
                · split at hp <;> simp at hp
                · simp only at hp
                  split at hp <;> simp at hp
              · simp at hd
      · simp
      · rename_i wa hd
        apply ih
        have := drain_once_pending _ _ _ hd
        omega

theorem recv_reply_fuel (w : World) (pw : Option Sock) :
    recv_reply w pw ≠ .error .out_of_fuel := by
  intro h
  unfold recv_reply at h
  dsimp only at h
  repeat' (split at h)
  all_goals simp at h

theorem route_cloud_fuel (peers : List Frame) (msg : Option Msg) (w : World) :
    route_cloud peers msg w ≠ .error .out_of_fuel := by
  induction peers generalizing msg w with
  | nil => simp [route_cloud]
  | cons p ps ih =>
      unfold route_cloud
      split
      · simp
      · split
        · simp
        · split
          · exact ih _ _
          · exact ih _ _

theorem primary_dispatch_fuel (cfg : Config) (w : World) (pw : Option Sock) :
    primary_dispatch cfg w pw ≠ .error .out_of_fuel := by
  intro h
  unfold primary_dispatch at h
  split at h
  · rename_i h2 hr
    injection h with h
    subst h
    exact recv_reply_fuel _ _ hr
  · split at h
    · rename_i h3 hrr
      injection h with h
      subst h
      unfold route_reply at hrr
      split at hrr
      · rename_i h4 hc
        injection hrr with hrr
        subst hrr
        exact route_cloud_fuel _ _ _ hc
      · simp at hrr
    · split at h
      · rename_i h5 hs
        injection h with h
        subst h
        unfold recv_state at hs
        repeat' (split at hs)
        all_goals simp at hs
      · simp at h

/-- The fuel a tick gives its drain loop is always enough. -/
theorem tick_fuel (cfg : Config) (w : World) : tick cfg w ≠ .error .out_of_fuel := by
  intro h
  unfold tick at h
  split at h
  · split at h
    · simp at h
    · split at h
      · rename_i h2 hd
        injection h with h
        subst h
        exact secondary_drain_fuel _ _ _ (Nat.lt_succ_self _) hd
      · simp at h
  · split at h
    · rename_i h2 hp
      injection h with h
      subst h
      exact primary_dispatch_fuel _ _ _ hp
    · split at h
      · rename_i h2 hd
        injection h with h
        subst h
        exact secondary_drain_fuel _ _ _ (Nat.lt_succ_self _) hd
      · simp at h


/-- C1: starting from `local_capacity = 0` and an empty idle-worker queue,
after every sequence of arrivals and ticks that the broker survives,
`local_capacity` equals the length of the idle-worker queue. -/
theorem local_capacity_eq_queue_length (cfg : Config) (random_in : List Nat)
    (steps : List Step) (w : World)
    (h : run cfg (World.init random_in) steps = .ok w) :
    w.local_capacity = (w.workers.length : Int) :=
  run_keeps cfg Balanced (fun _ _ _ hs hb => step_balanced cfg _ _ _ hs hb) steps _ _ h
    (by simp [Balanced, World.init])

theorem local_capacity_eq_queue_length_witness :
    run cfgAB (World.init []) two_ready_one_request = .ok after_two_ready_one_request ∧
      after_two_ready_one_request.local_capacity =
        (after_two_ready_one_request.workers.length : Int) :=
  ⟨by decide,
   local_capacity_eq_queue_length cfgAB [] two_ready_one_request
     after_two_ready_one_request (by decide)⟩


/-- With local capacity and an idle worker, the request goes to that worker. -/
theorem place_request_local (cfg : Config) (msg : Msg) (w : World) (wk : Frame)
    (ws : List Frame) (hlc : w.local_capacity ≠ 0) (hw : w.workers = wk :: ws) :
    place_request cfg msg w =
      .ok { w with workers := ws, local_capacity := w.local_capacity - 1,
                   sent := w.sent ++ [(Sock.localbe, wk :: [] :: msg)] } := by
  simp [place_request, hlc, zlist_pop, hw, zmsg_send, zmsg_wrap]

/-- A pass of the drain loop with a request ready on the local frontend reads
that one, whatever the cloud frontend holds. -/
theorem drain_once_localfe (cfg : Config) (w : World) (r : RouterMsg)
    (rs : List RouterMsg) (hsum : w.local_capacity + w.cloud_capacity ≠ 0)
    (hq : w.localfe_in = r :: rs) :
    drain_once cfg w =
      match place_request cfg r.frames { w with localfe_in := rs } with
      | .error h => .error h
      | .ok w2 => .ok (some w2) := by
  have hpoll : zpoller_wait w (secondary_readers w) = some Sock.localfe := by
    unfold zpoller_wait secondary_readers
    split <;> simp [List.find?, readable, hq]
  simp only [drain_once, hsum, if_false, hpoll, zmsg_recv, hq]

/-- A pass of the drain loop reads the cloud frontend only when there is local
capacity and the local frontend has nothing. -/
theorem drain_once_cloudfe (cfg : Config) (w : World) (c : RouterMsg)
    (cs : List RouterMsg) (hsum : w.local_capacity + w.cloud_capacity ≠ 0)
    (hlc : w.local_capacity ≠ 0) (hq : w.localfe_in = []) (hc : w.cloudfe_in = c :: cs) :
    drain_once cfg w =
      match place_request cfg c.frames { w with cloudfe_in := cs } with
      | .error h => .error h
      | .ok w2 => .ok (some w2) := by
  have hpoll : zpoller_wait w (secondary_readers w) = some Sock.cloudfe := by
    unfold zpoller_wait secondary_readers
    simp [hlc, List.find?, readable, hq, hc]
  simp only [drain_once, hsum, if_false, hpoll, zmsg_recv, hc]

/-- Without a request on either frontend the drain loop is left at once. -/
theorem drain_once_idle (cfg : Config) (w : World) (hq : w.localfe_in = [])
    (hc : w.cloudfe_in = []) : drain_once cfg w = .ok none := by
  have hpoll : zpoller_wait w (secondary_readers w) = none := by
    unfold zpoller_wait secondary_readers
    split <;> simp [List.find?, readable, hq, hc]
  unfold drain_once
  split
  · rfl
  · rw [hpoll]

/-- C2, refuted: with one idle worker and a request ready on each frontend,
the pass of the drain loop reads and dispatches the request of the local
frontend; the request of the cloud frontend stays unread. -/
theorem cloud_frontend_not_read_first :
    run cfgAB (World.init []) both_ready_steps = .ok both_ready ∧
      both_ready.local_capacity = 1 ∧
      both_ready.localfe_in = [request [0, 3] [52, 50]] ∧
      both_ready.cloudfe_in = [peer_request_B] ∧
      drain_once cfgAB both_ready =
        .ok (some { both_ready with
                    localfe_in := [], workers := [], local_capacity := 0,
                    sent := both_ready.sent ++ [(.localbe, [[7], [], [0, 3], [], [52, 50]])] }) := by
  decide

/-- C3: a message to route that has a leading frame is handed over exactly
once: to the cloud frontend if that frame is, in length and byte for byte, the
name of some configured peer (duplicates in the peer list included), and to
the local frontend otherwise. -/
theorem reply_routed_once (cfg : Config) (hd : Frame) (tl : List Frame) (w : World) :
    route_reply cfg.peers (some (hd :: tl)) w =
      .ok { w with sent := w.sent ++
              [(if hd ∈ cfg.peers then Sock.cloudfe else Sock.localfe, hd :: tl)] } := by
  rw [route_reply_cons]
  rfl

/-- The primary dispatch of a message read from the local backend whose first
remaining frame holds at least one byte. -/
theorem primary_dispatch_localbe (cfg : Config) (w : World) (m : RouterMsg)
    (more : List RouterMsg) (b : Nat) (bs : Frame) (tl : List Frame)
    (hq : w.localbe_in = m :: more) (hbody : m.body = (b :: bs) :: tl) :
    primary_dispatch cfg w (some .localbe) =
      .ok { w with localbe_in := more, workers := w.workers ++ [m.identity],
                   local_capacity := w.local_capacity + 1,
                   sent := if b = 1 then w.sent
                           else w.sent ++ [(if (b :: bs) ∈ cfg.peers then Sock.cloudfe
                                            else Sock.localfe, (b :: bs) :: tl)] } := by
  unfold primary_dispatch
  rw [recv_reply_localbe w m more hq, hbody]
  by_cases hb : b = 1
  · subst hb
    simp [zmsg_first, memcmp_eq, WORKER_READY, route_reply_none, recv_state, recv_monitor]
  · simp [zmsg_first, memcmp_eq, WORKER_READY, hb, route_reply_cons, recv_state,
      recv_monitor, zmsg_send]

/-- C4, refuted: the worker message whose body is the single frame `"\001A"`,
which is not the one-byte READY sentinel, is swallowed all the same: the
worker is queued and nothing is routed. -/
theorem ready_prefix_swallowed :
    ready_prefixed.body = [[1, 65]] ∧ ready_prefixed.body ≠ [WORKER_READY] ∧
      primary_dispatch cfgAB { World.init [] with localbe_in := [ready_prefixed] }
          (some .localbe) =
        .ok { World.init [] with local_capacity := 1, workers := [[7]], sent := [] } := by
  decide

/-- C4, amended: a message received on the local backend whose first frame
after the unwrapping holds at least one byte is swallowed (the worker is
queued, nothing is routed) if and only if that byte is `0x01`; otherwise the
remaining envelope is routed onward unchanged, to one frontend. -/
theorem swallowed_iff_first_byte_ready (cfg : Config) (w : World) (m : RouterMsg)
    (more : List RouterMsg) (b : Nat) (bs : Frame) (tl : List Frame)
    (hq : w.localbe_in = m :: more) (hbody : m.body = (b :: bs) :: tl) :
    ∃ w1, primary_dispatch cfg w (some .localbe) = .ok w1 ∧
      (b = 1 → w1.sent = w.sent) ∧
      (b ≠ 1 → w1.sent = w.sent ++ [(Sock.cloudfe, m.body)] ∨
                w1.sent = w.sent ++ [(Sock.localfe, m.body)]) := by
  refine ⟨_, primary_dispatch_localbe cfg w m more b bs tl hq hbody, ?_, ?_⟩
  · intro hb
    simp [hb]
  · intro hb
    rw [hbody]
    by_cases hp : (b :: bs) ∈ cfg.peers <;> simp [hb, hp]

theorem swallowed_iff_first_byte_ready_witness :
    ∃ w1, primary_dispatch cfgAB { World.init [] with localbe_in := [ready [7]] }
        (some .localbe) = .ok w1 ∧
      ((1 : Nat) = 1 → w1.sent = []) ∧
      ((1 : Nat) ≠ 1 → w1.sent = [] ++ [(Sock.cloudfe, (ready [7]).body)] ∨
                w1.sent = [] ++ [(Sock.localfe, (ready [7]).body)]) :=
  swallowed_iff_first_byte_ready cfgAB { World.init [] with localbe_in := [ready [7]] }
    (ready [7]) [] 1 [] [] (by decide) (by decide)


theorem randof_lt (num r : Nat) (h : 0 < num) : randof num r < num := by
  unfold randof RAND_CEILING
  apply Nat.div_lt_of_lt_mul
  have : r % 2147483648 < 2147483648 := Nat.mod_lt _ (by norm_num)
  rw [Nat.mul_comm]
  exact Nat.mul_lt_mul_of_pos_right this h

theorem random_eq (w : World) :
    random w = (w.random_in.headD 0, { w with random_in := w.random_in.tail }) := by
  unfold random
  cases w with
  | mk lc cc wk lb cb sf mo lf cf rnd sent pr =>
      cases rnd <;> rfl

/-- Without local capacity the request goes to the cloud backend, under the
name of the peer the next random number selects. -/
theorem place_request_cloud (cfg : Config) (msg : Msg) (w : World)
    (hp : cfg.peers ≠ []) (hlc : w.local_capacity = 0) :
    ∃ name, name ∈ cfg.peers ∧
      place_request cfg msg w =
        .ok { w with random_in := w.random_in.tail,
                     sent := w.sent ++ [(Sock.cloudbe, name :: msg)] } := by
  have hlen : 0 < cfg.peers.length := List.length_pos.2 hp
  have hlt : randof (cfg.argc - 2) (w.random_in.headD 0) < cfg.peers.length := by
    have : cfg.argc - 2 = cfg.peers.length := by simp [Config.argc]
    rw [this]
    exact randof_lt _ _ hlen
  refine ⟨cfg.peers.get ⟨_, hlt⟩, List.get_mem _ _ _, ?_⟩
  have harg : cfg.argv (randof (cfg.argc - 2) (w.random_in.headD 0) + 2) =
      some (cfg.peers.get ⟨_, hlt⟩) := by
    simp [Config.argv, List.get?_eq_get hlt]
  simp only [place_request, hlc, ne_eq, not_true_eq_false, if_false, random_eq, harg]
  simp [zmsg_send, zmsg_pushmem, hlc]

theorem secondary_drain_overflow (cfg : Config) (hp : cfg.peers ≠ [])
    (reqs : List RouterMsg) :
    ∀ (fuel : Nat) (w : World), reqs.length < fuel → w.localfe_in = reqs →
      w.local_capacity = 0 → w.cloud_capacity ≠ 0 →
      ∃ names : List Frame, names.length = reqs.length ∧ (∀ n ∈ names, n ∈ cfg.peers) ∧
        secondary_drain cfg fuel w =
          .ok { w with localfe_in := [], random_in := w.random_in.drop reqs.length,
                       sent := w.sent ++
                         List.zipWith (fun n r => (Sock.cloudbe, n :: RouterMsg.frames r))
                           names reqs } := by
  induction reqs with
  | nil =>
      intro fuel w hf hq hlc hcc
      refine ⟨[], rfl, by simp, ?_⟩
      obtain ⟨n, rfl⟩ : ∃ n, fuel = n + 1 := ⟨fuel - 1, by simp at hf; omega⟩
      have hpoll : zpoller_wait w (secondary_readers w) = none := by
        simp [zpoller_wait, secondary_readers, hlc, List.find?, readable, hq]
      have : drain_once cfg w = .ok none := by
        simp [drain_once, hlc, hcc, hpoll]
      simp only [secondary_drain, this, List.length_nil, List.drop_zero, List.zipWith_nil_left,
        List.append_nil]
      rw [← hq]
  | cons r rs ih =>
      intro fuel w hf hq hlc hcc
      obtain ⟨n, rfl⟩ : ∃ n, fuel = n + 1 := ⟨fuel - 1, by simp at hf; omega⟩
      have hsum : w.local_capacity + w.cloud_capacity ≠ 0 := by simpa [hlc] using hcc
      obtain ⟨name, hname, hplace⟩ :=
        place_request_cloud cfg r.frames { w with localfe_in := rs } hp hlc
      have hd := drain_once_localfe cfg w r rs hsum hq
      rw [hplace] at hd
      simp only at hd
      obtain ⟨names, hlen, hmem, hrec⟩ :=
        ih n { w with localfe_in := rs, random_in := w.random_in.tail,
                      sent := w.sent ++ [(Sock.cloudbe, name :: r.frames)] }
          (by simp at hf ⊢; omega) rfl hlc hcc
      refine ⟨name :: names, by simp [hlen], ?_, ?_⟩
      · intro x hx
        rcases List.mem_cons.1 hx with rfl | hx
        · exact hname
        · exact hmem x hx
      · rw [secondary_drain, hd]
        simp only
        rw [hrec]
        simp

/-- C5: with at least one configured peer, `local_capacity == 0` and
`cloud_capacity > 0`, the drain loop forwards every request waiting on the
local frontend: each gives exactly one message on the cloud backend, the name
of a configured peer put before the unchanged request, in arrival order;
nothing else is sent, and `local_capacity` and the worker queue stay as they
were. -/
theorem overflow_forwarded_once (cfg : Config) (w : World) (hp : cfg.peers ≠ [])
    (hlc : w.local_capacity = 0) (hcc : 0 < w.cloud_capacity) :
    ∃ names : List Frame, names.length = w.localfe_in.length ∧
      (∀ n ∈ names, n ∈ cfg.peers) ∧
      secondary_drain cfg (pending w + 1) w =
        .ok { w with localfe_in := [], random_in := w.random_in.drop w.localfe_in.length,
                     sent := w.sent ++
                       List.zipWith (fun n r => (Sock.cloudbe, n :: RouterMsg.frames r))
                         names w.localfe_in } :=
  secondary_drain_overflow cfg hp w.localfe_in (pending w + 1) w
    (by unfold pending; omega) rfl hlc (by omega)

theorem overflow_forwarded_once_witness :
    cfgAB.peers ≠ [] ∧ overflow_world.local_capacity = 0 ∧
      (0 : Int) < overflow_world.cloud_capacity ∧
      secondary_drain cfgAB (pending overflow_world + 1) overflow_world =
        .ok { overflow_world with
              localfe_in := [], random_in := [],
              sent := [(Sock.cloudbe, [[66], [0, 3], [], [52, 50]])] } ∧
      ∃ names : List Frame, names.length = overflow_world.localfe_in.length ∧
        (∀ n ∈ names, n ∈ cfgAB.peers) ∧
        secondary_drain cfgAB (pending overflow_world + 1) overflow_world =
          .ok { overflow_world with
                localfe_in := [],
                random_in := overflow_world.random_in.drop overflow_world.localfe_in.length,
                sent := overflow_world.sent ++
                  List.zipWith (fun n r => (Sock.cloudbe, n :: RouterMsg.frames r))
                    names overflow_world.localfe_in } :=
  ⟨by decide, by decide, by decide, by decide,
   overflow_forwarded_once cfgAB overflow_world (by decide) (by decide) (by decide)⟩


/-- What the reply step leaves as it was. -/
theorem recv_reply_vars (w w1 : World) (pw : Option Sock) (msg : Option Msg)
    (h : recv_reply w pw = .ok (msg, w1)) :
    w1.cloud_capacity = w.cloud_capacity ∧ w1.sent = w.sent ∧
      w1.statefe_in = w.statefe_in ∧ w1.monitor_in = w.monitor_in ∧
      w1.localfe_in = w.localfe_in ∧ w1.cloudfe_in = w.cloudfe_in ∧
      w1.random_in = w.random_in ∧ w1.printed = w.printed := by
  by_cases h1 : pw = some .localbe
  · subst h1
    cases hq : w.localbe_in with
    | nil => simp [recv_reply, zmsg_recv, hq] at h
    | cons m more =>
        rw [recv_reply_localbe w m more hq] at h
        split at h
        · simp at h
        · split at h
          · simp at h
          · split at h <;> simp at h <;> obtain ⟨-, rfl⟩ := h <;> simp
  · by_cases h2 : pw = some .cloudbe
    · subst h2
      cases hq : w.cloudbe_in with
      | nil => simp [recv_reply, zmsg_recv, hq] at h
      | cons m more =>
          rw [recv_reply_cloudbe w m more hq] at h
          simp at h
          obtain ⟨-, rfl⟩ := h
          simp
    · simp [recv_reply, h1, h2] at h
      obtain ⟨-, rfl⟩ := h
      simp

theorem route_reply_length (peers : List Frame) (msg : Option Msg) (w w1 : World)
    (h : route_reply peers msg w = .ok w1) : w1.sent.length ≤ w.sent.length + 1 := by
  cases msg with
  | none =>
      rw [route_reply_none] at h
      injection h with h
      simp [← h]
  | some m =>
      cases m with
      | nil =>
          cases peers with
          | nil =>
              simp [route_reply, route_cloud, route_local, zmsg_send] at h
              simp [← h]
          | cons p ps => simp [route_reply, route_cloud, zmsg_first] at h
      | cons hd tl =>
          rw [route_reply_cons] at h
          injection h with h
          simp [← h, zmsg_send]

theorem recv_state_sent (w w1 : World) (pw : Option Sock)
    (h : recv_state w pw = .ok w1) :
    w1.sent = w.sent ∧ w1.local_capacity = w.local_capacity ∧ w1.workers = w.workers := by
  unfold recv_state at h
  repeat' (split at h)
  all_goals simp at h
  all_goals subst h
  all_goals simp

theorem recv_monitor_sent (w : World) (pw : Option Sock) :
    (recv_monitor w pw).sent = w.sent ∧
      (recv_monitor w pw).local_capacity = w.local_capacity ∧
      (recv_monitor w pw).cloud_capacity = w.cloud_capacity ∧
      (recv_monitor w pw).workers = w.workers ∧
      (recv_monitor w pw).statefe_in = w.statefe_in := by
  unfold recv_monitor
  repeat' split
  all_goals simp

/-- The primary dispatch sends at most one message, and that one to a
frontend. -/
theorem primary_dispatch_sent (cfg : Config) (w w1 : World) (pw : Option Sock)
    (h : primary_dispatch cfg w pw = .ok w1) :
    ∃ out, w1.sent = w.sent ++ out ∧ out.length ≤ 1 ∧
      ∀ p ∈ out, p.1 = Sock.cloudfe ∨ p.1 = Sock.localfe := by
  unfold primary_dispatch at h
  split at h
  · simp at h
  · rename_i msg wa hr
    split at h
    · simp at h
    · rename_i wb hrr
      split at h
      · simp at h
      · rename_i wc hs
        injection h with h
        subst h
        obtain ⟨out, hout, hmem⟩ := route_reply_vars _ _ _ _ hrr
        have hlen := route_reply_length _ _ _ _ hrr
        have hsa := (recv_reply_vars _ _ _ _ hr).2.1
        refine ⟨out, ?_, ?_, hmem⟩
        · rw [(recv_monitor_sent wc pw).1, (recv_state_sent _ _ _ hs).1, hout, ← hsa]
        · rw [hout] at hlen
          simp at hlen
          exact hlen

theorem place_request_sent (cfg : Config) (msg : Msg) (w w1 : World)
    (h : place_request cfg msg w = .ok w1) :
    ∃ p, w1.sent = w.sent ++ [p] ∧ (p.1 = Sock.localbe ∨ p.1 = Sock.cloudbe) := by
  unfold place_request at h
  split at h
  · split at h
    · simp at h
    · injection h with h
      subst h
      exact ⟨_, rfl, Or.inl rfl⟩
  · simp only at h
    split at h
    · simp at h
    · injection h with h
      subst h
      rw [random_eq]
      exact ⟨_, rfl, Or.inr rfl⟩

theorem drain_once_sent (cfg : Config) (w w1 : World)
    (h : drain_once cfg w = .ok (some w1)) :
    ∃ p, w1.sent = w.sent ++ [p] ∧ (p.1 = Sock.localbe ∨ p.1 = Sock.cloudbe) := by
  unfold drain_once at h
  split at h
  · simp at h
  · split at h
    · simp at h
    · split at h
      · simp at h
      · rename_i sw msg wa hrecv
        split at h
        · simp at h
        · rename_i wb hp
          simp at h
          subst h
          obtain ⟨p, hp1, hp2⟩ := place_request_sent _ _ _ _ hp
          exact ⟨p, by rw [hp1, (zmsg_recv_vars _ _ _ _ hrecv).2.2.2.1], hp2⟩

/-- The drain loop sends to the two backends only. -/
theorem secondary_drain_sent (cfg : Config) (fuel : Nat) (w w1 : World)
    (h : secondary_drain cfg fuel w = .ok w1) :
    ∃ out, w1.sent = w.sent ++ out ∧
      ∀ p ∈ out, p.1 = Sock.localbe ∨ p.1 = Sock.cloudbe := by
  induction fuel generalizing w with
  | zero => simp [secondary_drain] at h
  | succ n ih =>
      unfold secondary_drain at h
      split at h
      · simp at h
      · injection h with h
        subst h
        exact ⟨[], by simp, by simp⟩
      · rename_i wa hd
        obtain ⟨p, hp1, hp2⟩ := drain_once_sent _ _ _ hd
        obtain ⟨out, ho1, ho2⟩ := ih _ h
        refine ⟨p :: out, by rw [ho1, hp1]; simp, ?_⟩
        intro q hq
        rcases List.mem_cons.1 hq with rfl | hq
        · exact hp2
        · exact ho2 q hq

theorem no_statebe (out : List (Sock × Msg))
    (h : ∀ p ∈ out, p.1 ≠ Sock.statebe) :
    out.filter (fun p => decide (p.1 = Sock.statebe)) = [] := by
  rw [List.filter_eq_nil_iff]
  intro p hp
  simpa using h p hp

/-- C6: in a tick that runs to completion the messages handed to the state
backend are: none if `local_capacity` is at the end what it was at the start,
and otherwise exactly one, of the two frames own name and decimal string of
the new `local_capacity`. -/
theorem broadcast_iff_capacity_changed (cfg : Config) (w w1 : World)
    (h : tick cfg w = .ok w1) :
    ∃ out, w1.sent = w.sent ++ out ∧
      out.filter (fun p => decide (p.1 = Sock.statebe)) =
        if w1.local_capacity ≠ w.local_capacity then
          [(Sock.statebe, [cfg.self, sprintf_d w1.local_capacity])]
        else [] := by
  have key : ∀ (wa wb : World) (outa : List (Sock × Msg)), wa.sent = w.sent ++ outa →
      (∀ p ∈ outa, p.1 ≠ Sock.statebe) →
      secondary_drain cfg (pending wa + 1) wa = .ok wb →
      ∃ out, (broadcast cfg w.local_capacity wb).sent = w.sent ++ out ∧
        out.filter (fun p => decide (p.1 = Sock.statebe)) =
          if (broadcast cfg w.local_capacity wb).local_capacity ≠ w.local_capacity then
            [(Sock.statebe, [cfg.self,
              sprintf_d (broadcast cfg w.local_capacity wb).local_capacity])]
          else [] := by
    intro wa wb outa ha hna hd
    obtain ⟨outb, hb, hnb⟩ := secondary_drain_sent _ _ _ _ hd
    have hnone : (outa ++ outb).filter (fun p => decide (p.1 = Sock.statebe)) = [] := by
      apply no_statebe
      intro p hp
      rcases List.mem_append.1 hp with hp | hp
      · exact hna p hp
      · rcases hnb p hp with h1 | h1 <;> simp [h1]
    unfold broadcast
    by_cases hc : wb.local_capacity = w.local_capacity
    · simp only [hc, ne_eq, not_true_eq_false, if_false]
      exact ⟨outa ++ outb, by rw [hb, ha, List.append_assoc], hnone⟩
    · simp only [hc, ne_eq, not_false_eq_true, if_true, zmsg_send]
      refine ⟨outa ++ outb ++ [(Sock.statebe, [cfg.self, sprintf_d wb.local_capacity])],
        by rw [hb, ha]; simp, ?_⟩
      rw [List.filter_append, hnone]
      simp
  unfold tick at h
  split at h
  · split at h
    · injection h with h
      subst h
      exact ⟨[], by simp, by simp⟩
    · split at h
      · simp at h
      · rename_i wb hd
        injection h with h
        subst h
        exact key w wb [] (by simp) (by simp) hd
  · split at h
    · simp at h
    · rename_i wa hp
      split at h
      · simp at h
      · rename_i wb hd
        injection h with h
        subst h
        obtain ⟨outa, ha, -, hna⟩ := primary_dispatch_sent _ _ _ _ hp
        refine key wa wb outa ha ?_ hd
        intro p hp
        rcases hna p hp with h1 | h1 <;> simp [h1]


theorem broadcast_iff_capacity_changed_witness :
    tick cfgAB one_ready_waiting = .ok one_ready_read ∧
      ∃ out, one_ready_read.sent = one_ready_waiting.sent ++ out ∧
        out.filter (fun p => decide (p.1 = Sock.statebe)) =
          if one_ready_read.local_capacity ≠ one_ready_waiting.local_capacity then
            [(Sock.statebe, [cfgAB.self, sprintf_d one_ready_read.local_capacity])]
          else [] :=
  ⟨by decide, broadcast_iff_capacity_changed cfgAB one_ready_waiting one_ready_read (by decide)⟩

theorem zmsg_recv_state (w w1 : World) (s : Sock) (msg : Option Msg)
    (h : zmsg_recv w s = (msg, w1)) :
    w1.statefe_in = w.statefe_in ∧ w1.monitor_in = w.monitor_in ∧ w1.printed = w.printed := by
  cases s <;> simp only [zmsg_recv] at h <;> (try split at h) <;>
    simp only [Prod.mk.injEq] at h <;> obtain ⟨-, rfl⟩ := h <;> simp

theorem place_request_cloud_vars (cfg : Config) (msg : Msg) (w w1 : World)
    (h : place_request cfg msg w = .ok w1) :
    w1.cloud_capacity = w.cloud_capacity ∧ w1.statefe_in = w.statefe_in := by
  unfold place_request at h
  split at h
  · split at h
    · simp at h
    · injection h with h
      subst h
      simp [zmsg_send]
  · simp only at h
    split at h
    · simp at h
    · injection h with h
      subst h
      rw [random_eq]
      simp [zmsg_send]

theorem drain_once_cloud_vars (cfg : Config) (w w1 : World)
    (h : drain_once cfg w = .ok (some w1)) :
    w1.cloud_capacity = w.cloud_capacity ∧ w1.statefe_in = w.statefe_in := by
  unfold drain_once at h
  split at h
  · simp at h
  · split at h
    · simp at h
    · split at h
      · simp at h
      · rename_i sw msg wa hrecv
        split at h
        · simp at h
        · rename_i wb hp
          simp at h
          subst h
          obtain ⟨h1, h2⟩ := place_request_cloud_vars _ _ _ _ hp
          rw [h1, h2, (zmsg_recv_vars _ _ _ _ hrecv).2.1, (zmsg_recv_state _ _ _ _ hrecv).1]
          exact ⟨rfl, rfl⟩

/-- The drain loop changes neither `cloud_capacity` nor what waits on the
state frontend. -/
theorem secondary_drain_cloud_vars (cfg : Config) (fuel : Nat) (w w1 : World)
    (h : secondary_drain cfg fuel w = .ok w1) :
    w1.cloud_capacity = w.cloud_capacity ∧ w1.statefe_in = w.statefe_in := by
  induction fuel generalizing w with
  | zero => simp [secondary_drain] at h
  | succ n ih =>
      unfold secondary_drain at h
      split at h
      · simp at h
      · injection h with h
        subst h
        exact ⟨rfl, rfl⟩
      · rename_i wa hd
        obtain ⟨h1, h2⟩ := drain_once_cloud_vars _ _ _ hd
        obtain ⟨h3, h4⟩ := ih _ h
        exact ⟨h3.trans h1, h4.trans h2⟩

theorem broadcast_cloud_vars (cfg : Config) (previous : Int) (w : World) :
    (broadcast cfg previous w).cloud_capacity = w.cloud_capacity ∧
      (broadcast cfg previous w).statefe_in = w.statefe_in := by
  unfold broadcast
  split <;> simp [zmsg_send]

theorem recv_state_nonneg (w w1 : World) (pw : Option Sock)
    (h : recv_state w pw = .ok w1) (hq : CloudNonneg w) : CloudNonneg w1 := by
  unfold recv_state at h
  split at h
  · split at h
    · simp at h
    · rename_i peer status more hs
      injection h with h
      subst h
      obtain ⟨-, h2⟩ := hq
      rw [hs] at h2
      exact ⟨h2 (peer, status) (List.mem_cons_self _ _),
        fun st hst => h2 st (List.mem_cons_of_mem _ hst)⟩
  · injection h with h
    subst h
    exact hq

theorem primary_dispatch_nonneg (cfg : Config) (w w1 : World) (pw : Option Sock)
    (h : primary_dispatch cfg w pw = .ok w1) (hq : CloudNonneg w) : CloudNonneg w1 := by
  unfold primary_dispatch at h
  split at h
  · simp at h
  · rename_i msg wa hr
    split at h
    · simp at h
    · rename_i wb hrr
      split at h
      · simp at h
      · rename_i wc hs
        injection h with h
        subst h
        obtain ⟨out, rfl, -⟩ := route_reply_vars _ _ _ _ hrr
        obtain ⟨hcc, -, hsf, -⟩ := recv_reply_vars _ _ _ _ hr
        have hwa : CloudNonneg wa := by
          unfold CloudNonneg at hq ⊢
          rw [hcc, hsf]
          exact hq
        have hwc : CloudNonneg wc := recv_state_nonneg _ _ _ hs hwa
        obtain ⟨-, -, h3, -, h5⟩ := recv_monitor_sent wc pw
        unfold CloudNonneg at hwc ⊢
        rw [h3, h5]
        exact hwc

theorem tick_nonneg (cfg : Config) (w w1 : World)
    (h : tick cfg w = .ok w1) (hq : CloudNonneg w) : CloudNonneg w1 := by
  have key : ∀ (wa wb : World), CloudNonneg wa →
      secondary_drain cfg (pending wa + 1) wa = .ok wb →
      CloudNonneg (broadcast cfg w.local_capacity wb) := by
    intro wa wb ha hd
    obtain ⟨h1, h2⟩ := secondary_drain_cloud_vars _ _ _ _ hd
    obtain ⟨h3, h4⟩ := broadcast_cloud_vars cfg w.local_capacity wb
    unfold CloudNonneg at ha ⊢
    rw [h3, h4, h1, h2]
    exact ha
  unfold tick at h
  split at h
  · split at h
    · injection h with h
      subst h
      exact hq
    · split at h
      · simp at h
      · rename_i wb hd
        injection h with h
        subst h
        exact key w wb hq hd
  · split at h
    · simp at h
    · rename_i wa hp
      split at h
      · simp at h
      · rename_i wb hd
        injection h with h
        subst h
        exact key wa wb (primary_dispatch_nonneg _ _ _ _ hp hq) hd

theorem step_nonneg (cfg : Config) (w w1 : World) (s : Step) (hs : StateNonneg s)
    (h : step cfg w s = .ok w1) (hq : CloudNonneg w) : CloudNonneg w1 := by
  cases s <;> simp only [step] at h
  case tick => exact tick_nonneg _ _ _ h hq
  case state peer status =>
    injection h with h
    subst h
    refine ⟨hq.1, ?_⟩
    intro st hst
    rcases List.mem_append.1 hst with hst | hst
    · exact hq.2 st hst
    · simp at hst
      subst hst
      exact hs
  all_goals
    injection h with h
    subst h
    exact hq

/-- A property kept by every successful step of a given kind holds after
every successful run of steps of that kind. -/
theorem run_keeps_where (cfg : Config) (P : World → Prop) (S : Step → Prop)
    (hstep : ∀ w w1 s, S s → step cfg w s = .ok w1 → P w → P w1)
    (steps : List Step) (hS : ∀ s ∈ steps, S s) (w w1 : World)
    (h : run cfg w steps = .ok w1) (hP : P w) : P w1 := by
  induction steps generalizing w with
  | nil =>
      simp [run] at h
      subst h
      exact hP
  | cons s more ih =>
      unfold run at h
      split at h
      · simp at h
      · rename_i wa hs
        exact ih (fun t ht => hS t (List.mem_cons_of_mem _ ht)) _ h
          (hstep _ _ _ (hS s (List.mem_cons_self _ _)) hs hP)

/-- C7, refuted: one state message whose capacity frame is `"-1"` leaves
`cloud_capacity` at `-1`. -/
theorem cloud_capacity_negative :
    run cfgAB (World.init []) [.state [66] [45, 49], .tick] =
        .ok { World.init [] with cloud_capacity := -1 } ∧
      ¬ (0 ≤ ({ World.init [] with cloud_capacity := -1 } : World).cloud_capacity) := by
  decide

/-- C7, amended: in every state the broker reaches `local_capacity >= 0`; and
`cloud_capacity >= 0` as long as the capacity frame of every state message
received parses to a number that is not negative. -/
theorem capacities_nonneg (cfg : Config) (random_in : List Nat) (steps : List Step)
    (w : World) (h : run cfg (World.init random_in) steps = .ok w) :
    0 ≤ w.local_capacity ∧ ((∀ s ∈ steps, StateNonneg s) → 0 ≤ w.cloud_capacity) := by
  constructor
  · have hb : Balanced w :=
      run_keeps cfg Balanced (fun _ _ _ hs hb => step_balanced cfg _ _ _ hs hb) steps _ _ h
        (by simp [Balanced, World.init])
    unfold Balanced at hb
    omega
  · intro hS
    exact (run_keeps_where cfg CloudNonneg StateNonneg
      (fun _ _ _ hs hstep hq => step_nonneg cfg _ _ _ hs hstep hq) steps hS _ _ h
      (by simp [CloudNonneg, World.init])).1

theorem capacities_nonneg_witness :
    run cfgAB (World.init []) state_three_steps = .ok after_state_three ∧
      0 ≤ after_state_three.local_capacity ∧ 0 ≤ after_state_three.cloud_capacity :=
  ⟨by decide,
   (capacities_nonneg cfgAB [] state_three_steps after_state_three (by decide)).1,
   (capacities_nonneg cfgAB [] state_three_steps after_state_three (by decide)).2
     (by
       intro s hs
       simp only [state_three_steps, List.mem_cons, List.mem_singleton, List.not_mem_nil,
         or_false] at hs
       rcases hs with rfl | rfl
       · show 0 ≤ atoi (c_string [51])
         decide
       · trivial)⟩


/-- C8: a request placed while `local_capacity > 0` goes to the local backend
wrapped with the identity at the head of the idle queue, and the queue keeps
the rest in order; a worker heard on the local backend is added at the tail,
so the head is the longest-idle worker.  After READY from `7` then `8`, one
client request is wrapped with `7`, `local_capacity` ends at 1 and the queue
is `[8]`. -/
theorem oldest_idle_worker_first (cfg : Config) (w : World) (wk : Frame) (ws : List Frame)
    (msg : Msg) (hlc : 0 < w.local_capacity) (hw : w.workers = wk :: ws) :
    place_request cfg msg w =
        .ok { w with workers := ws, local_capacity := w.local_capacity - 1,
                     sent := w.sent ++ [(Sock.localbe, wk :: [] :: msg)] } ∧
      (∀ m more r w1, w.localbe_in = m :: more →
        recv_reply w (some .localbe) = .ok (r, w1) →
          w1.workers = wk :: (ws ++ [m.identity]) ∧
            w1.local_capacity = w.local_capacity + 1) ∧
      run cfgAB (World.init []) two_ready_one_request = .ok after_two_ready_one_request := by
  refine ⟨place_request_local cfg msg w wk ws (by omega) hw, ?_, by decide⟩
  intro m more r w1 hq h
  rw [recv_reply_localbe w m more hq] at h
  split at h
  · simp at h
  · split at h
    · simp at h
    · split at h <;> simp at h <;> obtain ⟨-, rfl⟩ := h <;> simp [hw]

theorem oldest_idle_worker_first_witness :
    (0 : Int) < both_ready.local_capacity ∧ both_ready.workers = [7] :: [] ∧
      place_request cfgAB [[0, 3], [], [52, 50]] both_ready =
        .ok { both_ready with
              workers := [], local_capacity := both_ready.local_capacity - 1,
              sent := both_ready.sent ++ [(Sock.localbe, [7] :: [] :: [[0, 3], [], [52, 50]])] } :=
  ⟨by decide, by decide,
   (oldest_idle_worker_first cfgAB both_ready [7] [] [[0, 3], [], [52, 50]]
     (by decide) (by decide)).1⟩

theorem zpoller_wait_localbe (w : World) (m : RouterMsg) (more : List RouterMsg)
    (hq : w.localbe_in = m :: more) :
    zpoller_wait w primary_readers = some Sock.localbe := by
  simp [zpoller_wait, primary_readers, List.find?, readable, hq]

theorem secondary_drain_idle (cfg : Config) (fuel : Nat) (w : World)
    (hq : w.localfe_in = []) (hc : w.cloudfe_in = []) :
    secondary_drain cfg (fuel + 1) w = .ok w := by
  simp [secondary_drain, drain_once_idle cfg w hq hc]

/-- A tick that finds a READY on the local backend and no request on the
frontends. -/
theorem tick_ready (cfg : Config) (w : World) (identity : Frame) (more : List RouterMsg)
    (hq : w.localbe_in = ready identity :: more) (hl : w.localfe_in = [])
    (hc : w.cloudfe_in = []) :
    tick cfg w =
      .ok { w with localbe_in := more, workers := w.workers ++ [identity],
                   local_capacity := w.local_capacity + 1,
                   sent := w.sent ++
                     [(Sock.statebe, [cfg.self, sprintf_d (w.local_capacity + 1)])] } := by
  have hd := primary_dispatch_localbe cfg w (ready identity) more 1 [] [] hq (by rfl)
  rw [if_pos rfl] at hd
  unfold tick
  rw [zpoller_wait_localbe w _ more hq]
  simp only [hd]
  rw [secondary_drain_idle cfg _ _ (by simpa using hl) (by simpa using hc)]
  simp [broadcast, zmsg_send, ready]

theorem ready_broadcasts_succ (cfg : Config) (start : Int) (n : Nat) :
    ready_broadcasts cfg start (n + 1) =
      (Sock.statebe, [cfg.self, sprintf_d (start + 1)]) ::
        ready_broadcasts cfg (start + 1) n := by
  unfold ready_broadcasts
  rw [List.range_succ_eq_map]
  simp only [List.map_cons, List.map_map, Nat.cast_zero, add_zero]
  congr 1
  apply List.map_congr_left
  intro i _
  have : start + ((i : Int) + 1) + 1 = start + 1 + (i : Int) + 1 := by ring
  simp [Function.comp, this]

theorem run_readies (cfg : Config) (ids : List Frame) :
    ∀ (w : World) (more : List RouterMsg), w.localbe_in = readies ids ++ more →
      w.localfe_in = [] → w.cloudfe_in = [] →
      run cfg w (List.replicate ids.length Step.tick) =
        .ok { w with localbe_in := more, workers := w.workers ++ ids,
                     local_capacity := w.local_capacity + ids.length,
                     sent := w.sent ++ ready_broadcasts cfg w.local_capacity ids.length } := by
  induction ids with
  | nil =>
      intro w more hq _ _
      simp only [readies, List.map_nil, List.nil_append] at hq
      simp [run, ready_broadcasts, ← hq]
  | cons identity ids ih =>
      intro w more hq hl hc
      have hq1 : w.localbe_in = ready identity :: (readies ids ++ more) := by
        simpa [readies] using hq
      simp only [List.length_cons, List.replicate_succ, run, step,
        tick_ready cfg w identity _ hq1 hl hc]
      rw [ih _ more rfl (by simpa using hl) (by simpa using hc), ready_broadcasts_succ]
      simp [add_assoc, add_comm]
      omega

/-- C9: from any state with no request waiting on either frontend, the ticks
that read `N` consecutive READY messages raise `local_capacity` by exactly
`N`, add the `N` worker identities to the tail of the idle queue in arrival
order, and send nothing but the capacity broadcasts on the state backend. -/
theorem ready_raises_capacity (cfg : Config) (ids : List Frame) (w : World)
    (more : List RouterMsg) (hq : w.localbe_in = readies ids ++ more)
    (hl : w.localfe_in = []) (hc : w.cloudfe_in = []) :
    run cfg w (List.replicate ids.length Step.tick) =
      .ok { w with localbe_in := more, workers := w.workers ++ ids,
                   local_capacity := w.local_capacity + ids.length,
                   sent := w.sent ++ ready_broadcasts cfg w.local_capacity ids.length } :=
  run_readies cfg ids w more hq hl hc


theorem ready_raises_capacity_witness :
    two_ready_waiting.localbe_in = readies [[7], [8]] ++ [] ∧
      two_ready_waiting.localfe_in = [] ∧ two_ready_waiting.cloudfe_in = [] ∧
      run cfgAB two_ready_waiting (List.replicate 2 Step.tick) =
        .ok { World.init [] with
              local_capacity := 2, workers := [[7], [8]],
              sent := [(.statebe, [[65], [49]]), (.statebe, [[65], [50]])] } ∧
      run cfgAB two_ready_waiting (List.replicate ([[7], [8]] : List Frame).length Step.tick) =
        .ok { two_ready_waiting with
              localbe_in := [], workers := two_ready_waiting.workers ++ [[7], [8]],
              local_capacity := two_ready_waiting.local_capacity +
                (([[7], [8]] : List Frame).length : Int),
              sent := two_ready_waiting.sent ++
                ready_broadcasts cfgAB two_ready_waiting.local_capacity
                  ([[7], [8]] : List Frame).length } :=
  ⟨by decide, by decide, by decide, by decide,
   ready_raises_capacity cfgAB [[7], [8]] two_ready_waiting [] (by decide) (by decide)
     (by decide)⟩

theorem c_string_cons (c : Nat) (cs : Frame) (hc : c ≠ 0) :
    c_string (c :: cs) = c :: c_string cs := by
  have : (c != 0) = true := by simpa using hc
  simp [c_string, List.takeWhile_cons, this]

theorem atoi_digits_c_string (acc : Nat) (s : Frame) :
    atoi_digits acc (c_string s) = atoi_digits acc s := by
  induction s generalizing acc with
  | nil => rfl
  | cons c cs ih =>
      by_cases hc : c = 0
      · subst hc
        simp [c_string, atoi_digits, isdigit]
      · have : c_string (c :: cs) = c :: c_string cs := c_string_cons c cs hc
        rw [this]
        simp only [atoi_digits]
        split
        · exact ih _
        · rfl

theorem atoi_signed_c_string (s : Frame) : atoi_signed (c_string s) = atoi_signed s := by
  cases s with
  | nil => rfl
  | cons c cs =>
      by_cases hc : c = 0
      · subst hc
        simp [c_string, atoi_signed, atoi_digits, isdigit]
      · have : c_string (c :: cs) = c :: c_string cs := c_string_cons c cs hc
        rw [this]
        simp only [atoi_signed]
        have h1 := atoi_digits_c_string 0 cs
        have h2 := atoi_digits_c_string 0 (c :: cs)
        rw [this] at h2
        rw [h1, h2]

/-- The NUL that ends the C string is where `atoi` stops at the latest. -/
theorem atoi_c_string (s : Frame) : atoi (c_string s) = atoi s := by
  induction s with
  | nil => rfl
  | cons c cs ih =>
      by_cases hc : c = 0
      · subst hc
        simp [c_string, atoi, isspace, atoi_signed, atoi_digits, isdigit]
      · have : c_string (c :: cs) = c :: c_string cs := c_string_cons c cs hc
        rw [this]
        simp only [atoi]
        split
        · exact ih
        · have h := atoi_signed_c_string (c :: cs)
          rw [this] at h
          exact h

/-- C10: the primary dispatch of a state message `(peer, status)` sets
`cloud_capacity` to `atoi (status)`, whatever the peer name and the previous
value, and changes nothing else but the queue of the state frontend: no
message is sent, `local_capacity` and the idle-worker queue stay.  The state
frontend is the reader reported when neither backend has input. -/
theorem state_sets_cloud_capacity (cfg : Config) (w : World) (peer status : Frame)
    (more : List (Frame × Frame)) (hs : w.statefe_in = (peer, status) :: more) :
    primary_dispatch cfg w (some .statefe) =
        .ok { w with statefe_in := more, cloud_capacity := atoi status } ∧
      (w.localbe_in = [] → w.cloudbe_in = [] →
        zpoller_wait w primary_readers = some Sock.statefe) := by
  constructor
  · simp [primary_dispatch, recv_reply, route_reply_none, recv_state, hs, recv_monitor,
      atoi_c_string]
  · intro h1 h2
    simp [zpoller_wait, primary_readers, List.find?, readable, h1, h2, hs]

theorem state_sets_cloud_capacity_witness :
    state_waiting.statefe_in = ([66], [51]) :: [] ∧
      primary_dispatch cfgAB state_waiting (some .statefe) =
        .ok { state_waiting with statefe_in := [], cloud_capacity := 3 } ∧
      (primary_dispatch cfgAB state_waiting (some .statefe) =
          .ok { state_waiting with statefe_in := [], cloud_capacity := atoi [51] } ∧
        (state_waiting.localbe_in = [] → state_waiting.cloudbe_in = [] →
          zpoller_wait state_waiting primary_readers = some Sock.statefe)) :=
  ⟨by decide, by decide,
   state_sets_cloud_capacity cfgAB state_waiting [66] [51] [] (by decide)⟩


/-- Without a configured peer the overflow branch reads `argv [argc]`. -/
theorem place_request_no_peer (cfg : Config) (msg : Msg) (w : World)
    (hp : cfg.peers = []) (hlc : w.local_capacity = 0) :
    place_request cfg msg w = .error .null_peer := by
  simp [place_request, hlc, Config.argv, hp]

/-- With local capacity but an empty worker list the wrap gets NULL. -/
theorem place_request_no_worker (cfg : Config) (msg : Msg) (w : World)
    (hlc : w.local_capacity ≠ 0) (hw : w.workers = []) :
    place_request cfg msg w = .error .null_worker := by
  simp [place_request, hlc, zlist_pop, hw]

/-- What a pass of the drain loop that reads a request has done: it read the
local frontend and placed the request on a worker, or read the local frontend
without local capacity and placed the request on a peer, or found the local
frontend empty and placed a request of the cloud frontend on a worker. -/
theorem drain_once_cases (cfg : Config) (w w1 : World)
    (h : drain_once cfg w = .ok (some w1)) :
    (∃ r rs wk ws, w.localfe_in = r :: rs ∧ w.local_capacity ≠ 0 ∧ w.workers = wk :: ws ∧
      w1 = { w with localfe_in := rs, workers := ws, local_capacity := w.local_capacity - 1,
                    sent := w.sent ++ [(Sock.localbe, wk :: [] :: r.frames)] }) ∨
    (∃ r rs name, w.localfe_in = r :: rs ∧ w.local_capacity = 0 ∧ name ∈ cfg.peers ∧
      w1 = { w with localfe_in := rs, random_in := w.random_in.tail,
                    sent := w.sent ++ [(Sock.cloudbe, name :: r.frames)] }) ∨
    (∃ c cs wk ws, w.localfe_in = [] ∧ w.cloudfe_in = c :: cs ∧ w.local_capacity ≠ 0 ∧
      w.workers = wk :: ws ∧
      w1 = { w with cloudfe_in := cs, workers := ws, local_capacity := w.local_capacity - 1,
                    sent := w.sent ++ [(Sock.localbe, wk :: [] :: c.frames)] }) := by
  have hsum : w.local_capacity + w.cloud_capacity ≠ 0 := by
    intro h0
    simp [drain_once, h0] at h
  cases hq : w.localfe_in with
  | cons r rs =>
      rw [drain_once_localfe cfg w r rs hsum hq] at h
      by_cases hlc : w.local_capacity = 0
      · by_cases hp : cfg.peers = []
        · rw [place_request_no_peer cfg _ _ hp (by simpa using hlc)] at h
          simp at h
        · obtain ⟨name, hname, hpl⟩ :=
            place_request_cloud cfg r.frames { w with localfe_in := rs } hp hlc
          rw [hpl] at h
          simp only [Except.ok.injEq, Option.some.injEq] at h
          exact Or.inr (Or.inl ⟨r, rs, name, rfl, hlc, hname, h.symm⟩)
      · cases hw : w.workers with
        | nil =>
            rw [place_request_no_worker cfg _ _ (by simpa using hlc) (by simpa using hw)] at h
            simp at h
        | cons wk ws =>
            rw [place_request_local cfg _ _ wk ws (by simpa using hlc) (by simpa using hw)] at h
            simp only [Except.ok.injEq, Option.some.injEq] at h
            exact Or.inl ⟨r, rs, wk, ws, rfl, hlc, rfl, h.symm⟩
  | nil =>
      cases hc : w.cloudfe_in with
      | nil =>
          rw [drain_once_idle cfg w hq hc] at h
          simp at h
      | cons c cs =>
          by_cases hlc : w.local_capacity = 0
          · have hpoll : zpoller_wait w (secondary_readers w) = none := by
              simp [zpoller_wait, secondary_readers, hlc, List.find?, readable, hq]
            simp [drain_once, hsum, hpoll] at h
          · rw [drain_once_cloudfe cfg w c cs hsum hlc hq hc] at h
            cases hw : w.workers with
            | nil =>
                rw [place_request_no_worker cfg _ _ (by simpa using hlc)
                  (by simpa using hw)] at h
                simp at h
            | cons wk ws =>
                rw [place_request_local cfg _ _ wk ws (by simpa using hlc)
                  (by simpa using hw)] at h
                simp only [Except.ok.injEq, Option.some.injEq] at h
                exact Or.inr (Or.inr ⟨c, cs, wk, ws, rfl, rfl, hlc, rfl, by rw [← h, hq]⟩)

/-- Every state the broker passes through is balanced. -/
theorem reachable_balanced (cfg : Config) (w : World) (h : Reachable cfg w) : Balanced w := by
  induction h with
  | init random_in => simp [Balanced, World.init]
  | step s _ hs ih => exact step_balanced cfg _ _ s hs ih
  | dispatch _ hd ih => exact primary_dispatch_balanced cfg _ _ _ hd ih
  | pass _ hp ih => exact drain_once_balanced cfg _ _ hp ih

/-- A state between steps is one the broker passes through. -/
theorem reachable_of_run (cfg : Config) (steps : List Step) :
    ∀ (w w1 : World), Reachable cfg w → run cfg w steps = .ok w1 → Reachable cfg w1 := by
  induction steps with
  | nil =>
      intro w w1 hr h
      simp [run] at h
      subst h
      exact hr
  | cons s more ih =>
      intro w w1 hr h
      unfold run at h
      split at h
      · simp at h
      · rename_i wa hs
        exact ih wa w1 (Reachable.step s hr hs) h

/-- With local capacity a balanced state has a worker at the head of its
queue. -/
theorem balanced_head (w : World) (hb : Balanced w) (hlc : w.local_capacity ≠ 0) :
    ∃ wk ws, w.workers = wk :: ws := by
  unfold Balanced at hb
  cases hw : w.workers with
  | nil =>
      rw [hw] at hb
      simp at hb
      exact absurd hb hlc
  | cons wk ws => exact ⟨wk, ws, rfl⟩


/-- C11: in every state the broker passes through, a pass of the drain loop
that takes a request from the cloud frontend (the local frontend is empty and
there is local capacity) hands it to the local backend, wrapped with the
worker at the head of the queue; a pass that reads the cloud frontend always
sends to the local backend, and whatever a pass sends to the cloud backend is
a request it read from the local frontend. -/
theorem cloud_request_to_local_worker (cfg : Config) (w : World) (hr : Reachable cfg w) :
    (∀ c cs, w.localfe_in = [] → w.cloudfe_in = c :: cs → w.local_capacity ≠ 0 →
      w.local_capacity + w.cloud_capacity ≠ 0 →
      ∃ wk ws, w.workers = wk :: ws ∧
        drain_once cfg w =
          .ok (some { w with cloudfe_in := cs, workers := ws,
                             local_capacity := w.local_capacity - 1,
                             sent := w.sent ++ [(Sock.localbe, wk :: [] :: c.frames)] })) ∧
    (∀ w1, drain_once cfg w = .ok (some w1) → w1.cloudfe_in ≠ w.cloudfe_in →
      ∃ c wk, w.cloudfe_in = c :: w1.cloudfe_in ∧
        w1.sent = w.sent ++ [(Sock.localbe, wk :: [] :: c.frames)]) ∧
    (∀ w1 m, drain_once cfg w = .ok (some w1) → w1.sent = w.sent ++ [(Sock.cloudbe, m)] →
      w1.cloudfe_in = w.cloudfe_in ∧
        ∃ r name, w.localfe_in = r :: w1.localfe_in ∧ name ∈ cfg.peers ∧
          m = name :: r.frames) := by
  refine ⟨?_, ?_, ?_⟩
  · intro c cs hq hc hlc hsum
    obtain ⟨wk, ws, hw⟩ := balanced_head w (reachable_balanced cfg w hr) hlc
    refine ⟨wk, ws, hw, ?_⟩
    rw [drain_once_cloudfe cfg w c cs hsum hlc hq hc,
      place_request_local cfg c.frames _ wk ws (by simpa using hlc) (by simpa using hw)]
  · intro w1 h hne
    rcases drain_once_cases cfg w w1 h with
      ⟨r, rs, wk, ws, -, -, -, rfl⟩ | ⟨r, rs, name, -, -, -, rfl⟩ |
      ⟨c, cs, wk, ws, -, hc, -, -, rfl⟩
    · exact absurd rfl hne
    · exact absurd rfl hne
    · exact ⟨c, wk, hc, rfl⟩
  · intro w1 m h hs
    rcases drain_once_cases cfg w w1 h with
      ⟨r, rs, wk, ws, -, -, -, rfl⟩ | ⟨r, rs, name, hq, -, hname, rfl⟩ |
      ⟨c, cs, wk, ws, -, hc, -, -, rfl⟩
    · simp at hs
    · simp only [List.append_cancel_left_eq, List.cons.injEq, Prod.mk.injEq, true_and,
        and_true] at hs
      exact ⟨rfl, r, name, hq, hname, hs.symm⟩
    · simp at hs

theorem cloud_request_to_local_worker_witness :
    Reachable cfgAB cloud_only ∧
      drain_once cfgAB cloud_only =
        .ok (some { cloud_only with
                    cloudfe_in := [], workers := [], local_capacity := 0,
                    sent := cloud_only.sent ++
                      [(Sock.localbe, [7] :: [] :: peer_request_B.frames)] }) ∧
      ∃ wk ws, cloud_only.workers = wk :: ws ∧
        drain_once cfgAB cloud_only =
          .ok (some { cloud_only with
                      cloudfe_in := [], workers := ws,
                      local_capacity := cloud_only.local_capacity - 1,
                      sent := cloud_only.sent ++
                        [(Sock.localbe, wk :: [] :: peer_request_B.frames)] }) :=
  ⟨reachable_of_run cfgAB cloud_only_steps _ _ (Reachable.init []) (by decide), by decide,
   (cloud_request_to_local_worker cfgAB cloud_only
     (reachable_of_run cfgAB cloud_only_steps _ _ (Reachable.init []) (by decide))).1
     peer_request_B [] (by decide) (by decide) (by decide) (by decide)⟩

theorem place_request_null_worker (cfg : Config) (msg : Msg) (w : World) (hb : Balanced w) :
    place_request cfg msg w ≠ .error .null_worker := by
  by_cases hlc : w.local_capacity = 0
  · unfold place_request
    simp only [hlc, ne_eq, not_true_eq_false, if_false]
    split <;> simp
  · obtain ⟨wk, ws, hw⟩ := balanced_head w hb hlc
    rw [place_request_local cfg msg w wk ws hlc hw]
    simp

theorem drain_once_null_worker (cfg : Config) (w : World) (hb : Balanced w) :
    drain_once cfg w ≠ .error .null_worker := by
  intro h
  unfold drain_once at h
  split at h
  · simp at h
  · split at h
    · simp at h
    · split at h
      · simp at h
      · rename_i sw msg wa hrecv
        split at h
        · rename_i h2 hp
          injection h with h
          subst h
          refine place_request_null_worker cfg msg wa ?_ hp
          obtain ⟨h1, -, h3, -, -⟩ := zmsg_recv_vars _ _ _ _ hrecv
          unfold Balanced at hb ⊢
          rw [h1, h3, hb]
        · simp at h

theorem secondary_drain_null_worker (cfg : Config) (fuel : Nat) (w : World)
    (hb : Balanced w) : secondary_drain cfg fuel w ≠ .error .null_worker := by
  induction fuel generalizing w with
  | zero => simp [secondary_drain]
  | succ n ih =>
      unfold secondary_drain
      split
      · rename_i h hd
        intro hh
        injection hh with hh
        subst hh
        exact drain_once_null_worker cfg w hb hd
      · simp
      · rename_i wa hd
        exact ih wa (drain_once_balanced cfg w wa hd hb)

/-- The ways the primary dispatch can stop. -/
theorem primary_dispatch_halts (cfg : Config) (w : World) (pw : Option Sock) (e : Halt)
    (h : primary_dispatch cfg w pw = .error e) :
    e = .interrupted ∨ e = .null_frame ∨ e = .past_frame ∨ e = .null_string := by
  unfold primary_dispatch at h
  split at h
  · rename_i h2 hr
    injection h with h
    subst h
    unfold recv_reply at hr
    dsimp only at hr
    repeat' (split at hr)
    all_goals simp at hr
    all_goals subst hr
    all_goals simp
  · rename_i msg wa hr
    split at h
    · rename_i h3 hrr
      injection h with h
      subst h
      cases msg with
      | none => simp [route_reply_none] at hrr
      | some m =>
          cases m with
          | nil =>
              cases hp : cfg.peers with
              | nil => simp [route_reply, route_cloud, hp] at hrr
              | cons p ps =>
                  simp [route_reply, route_cloud, hp, zmsg_first] at hrr
                  subst hrr
                  simp
          | cons hd tl => simp [route_reply_cons] at hrr
    · split at h
      · rename_i h5 hs
        injection h with h
        subst h
        unfold recv_state at hs
        repeat' (split at hs)
        all_goals simp at hs
        all_goals subst hs
        all_goals simp
      · simp at h

theorem tick_null_worker (cfg : Config) (w : World) (hb : Balanced w) :
    tick cfg w ≠ .error .null_worker := by
  intro h
  unfold tick at h
  split at h
  · split at h
    · simp at h
    · split at h
      · rename_i h2 hd
        injection h with h
        subst h
        exact secondary_drain_null_worker cfg _ w hb hd
      · simp at h
  · split at h
    · rename_i h2 hp
      injection h with h
      subst h
      have := primary_dispatch_halts cfg w _ _ hp
      simp at this
    · rename_i wa hp
      split at h
      · rename_i h2 hd
        injection h with h
        subst h
        exact secondary_drain_null_worker cfg _ wa (primary_dispatch_balanced cfg w wa _ hp hb) hd
      · simp at h

theorem run_null_worker (cfg : Config) (steps : List Step) :
    ∀ w : World, Balanced w → run cfg w steps ≠ .error .null_worker := by
  induction steps with
  | nil =>
      intro w _
      simp [run]
  | cons s more ih =>
      intro w hb
      unfold run
      split
      · rename_i h hs
        intro hh
        injection hh with hh
        subst hh
        cases s <;> simp only [step] at hs
        case tick => exact tick_null_worker cfg w hb hs
        all_goals simp at hs
      · rename_i wa hs
        exact ih wa (step_balanced cfg w wa s hs hb)

/-- C12: in every state the broker passes through, `local_capacity` is not
negative and, when it is not zero, the idle queue has a worker at its head;
a pass of the drain loop takes a worker only then, the pop never yields NULL,
the decrement never starts from zero, and no run from such a state ever stops
in `zmsg_wrap (msg, NULL)`. -/
theorem worker_taken_only_when_available (cfg : Config) (w : World)
    (hr : Reachable cfg w) :
    0 ≤ w.local_capacity ∧
      (w.local_capacity ≠ 0 → 0 < w.local_capacity ∧ ∃ wk ws, w.workers = wk :: ws) ∧
      drain_once cfg w ≠ .error .null_worker ∧
      (∀ w1, drain_once cfg w = .ok (some w1) → w1.workers ≠ w.workers →
        0 < w.local_capacity ∧ w1.local_capacity = w.local_capacity - 1 ∧
          ∃ wk, w.workers = wk :: w1.workers) ∧
      (∀ w1, drain_once cfg w = .ok (some w1) → w1.local_capacity ≠ w.local_capacity →
        0 < w.local_capacity ∧ ∃ wk, w.workers = wk :: w1.workers) ∧
      ∀ steps, run cfg w steps ≠ .error .null_worker := by
  have hb := reachable_balanced cfg w hr
  have hnn : 0 ≤ w.local_capacity := by
    unfold Balanced at hb
    omega
  refine ⟨hnn, ?_, drain_once_null_worker cfg w hb, ?_, ?_, fun steps => run_null_worker cfg steps w hb⟩
  · intro hlc
    exact ⟨by omega, balanced_head w hb hlc⟩
  · intro w1 h hne
    rcases drain_once_cases cfg w w1 h with
      ⟨r, rs, wk, ws, -, hlc, hw, rfl⟩ | ⟨r, rs, name, -, -, -, rfl⟩ |
      ⟨c, cs, wk, ws, -, -, hlc, hw, rfl⟩
    · exact ⟨by omega, rfl, wk, hw⟩
    · exact absurd rfl hne
    · exact ⟨by omega, rfl, wk, hw⟩
  · intro w1 h hne
    rcases drain_once_cases cfg w w1 h with
      ⟨r, rs, wk, ws, -, hlc, hw, rfl⟩ | ⟨r, rs, name, -, -, -, rfl⟩ |
      ⟨c, cs, wk, ws, -, -, hlc, hw, rfl⟩
    · exact ⟨by omega, wk, hw⟩
    · exact absurd rfl hne
    · exact ⟨by omega, wk, hw⟩

theorem worker_taken_only_when_available_witness :
    Reachable cfgAB both_ready ∧
      (0 ≤ both_ready.local_capacity ∧
      (both_ready.local_capacity ≠ 0 →
        0 < both_ready.local_capacity ∧ ∃ wk ws, both_ready.workers = wk :: ws) ∧
      drain_once cfgAB both_ready ≠ .error .null_worker ∧
      (∀ w1, drain_once cfgAB both_ready = .ok (some w1) → w1.workers ≠ both_ready.workers →
        0 < both_ready.local_capacity ∧ w1.local_capacity = both_ready.local_capacity - 1 ∧
          ∃ wk, both_ready.workers = wk :: w1.workers) ∧
      (∀ w1, drain_once cfgAB both_ready = .ok (some w1) →
        w1.local_capacity ≠ both_ready.local_capacity →
        0 < both_ready.local_capacity ∧ ∃ wk, both_ready.workers = wk :: w1.workers) ∧
      ∀ steps, run cfgAB both_ready steps ≠ .error .null_worker) :=
  ⟨reachable_of_run cfgAB both_ready_steps _ _ (Reachable.init []) (by decide),
   worker_taken_only_when_available cfgAB both_ready
     (reachable_of_run cfgAB both_ready_steps _ _ (Reachable.init []) (by decide))⟩


theorem isdigit_iff (c : Nat) : isdigit c = true ↔ 48 ≤ c ∧ c ≤ 57 := by
  simp [isdigit]

theorem atoi_digits_append (l r : List Nat) (hl : ∀ c ∈ l, isdigit c = true) :
    ∀ acc, atoi_digits acc (l ++ r) = atoi_digits (atoi_digits acc l) r := by
  induction l with
  | nil =>
      intro acc
      rfl
  | cons c cs ih =>
      intro acc
      have hc : isdigit c = true := hl c (List.mem_cons_self _ _)
      simp only [List.cons_append, atoi_digits, hc, if_true]
      exact ih (fun x hx => hl x (List.mem_cons_of_mem _ hx)) _

theorem decimal_digits (fuel n : Nat) : ∀ c ∈ decimal fuel n, isdigit c = true := by
  induction fuel generalizing n with
  | zero =>
      intro c hc
      simp only [decimal, List.mem_singleton] at hc
      subst hc
      rw [isdigit_iff]
      have := Nat.mod_lt n (show 0 < 10 by norm_num)
      omega
  | succ f ih =>
      intro c hc
      unfold decimal at hc
      split at hc
      · simp only [List.mem_singleton] at hc
        subst hc
        rw [isdigit_iff]
        omega
      · rcases List.mem_append.1 hc with hc | hc
        · exact ih _ c hc
        · simp only [List.mem_singleton] at hc
          subst hc
          rw [isdigit_iff]
          have := Nat.mod_lt n (show 0 < 10 by norm_num)
          omega

theorem atoi_digits_last (acc d : Nat) (hd : d < 10) :
    atoi_digits acc [48 + d] = acc * 10 + d := by
  have : isdigit (48 + d) = true := by
    rw [isdigit_iff]
    omega
  simp [atoi_digits, this]

/-- Reading back the digits `decimal` wrote gives the number. -/
theorem atoi_digits_decimal (fuel : Nat) :
    ∀ n, n ≤ fuel → atoi_digits 0 (decimal fuel n) = n := by
  induction fuel with
  | zero =>
      intro n hn
      have : n = 0 := by omega
      subst this
      rfl
  | succ f ih =>
      intro n hn
      unfold decimal
      split
      · rename_i hlt
        have := atoi_digits_last 0 n hlt
        simpa using this
      · rename_i hge
        rw [atoi_digits_append _ _ (decimal_digits f (n / 10)), ih (n / 10) (by omega),
          atoi_digits_last _ _ (Nat.mod_lt n (by norm_num))]
        omega

theorem decimal_head (fuel n : Nat) :
    ∃ c cs, decimal fuel n = c :: cs ∧ isdigit c = true := by
  have hd := decimal_digits fuel n
  cases h : decimal fuel n with
  | nil =>
      exfalso
      cases fuel with
      | zero => simp [decimal] at h
      | succ f =>
          unfold decimal at h
          split at h <;> simp at h
  | cons c cs =>
      rw [h] at hd
      exact ⟨c, cs, rfl, hd c (List.mem_cons_self _ _)⟩

/-- `atoi` of what `"%d"` prints for a number that is not negative. -/
theorem atoi_sprintf_d (n : Int) (hn : 0 ≤ n) : atoi (sprintf_d n) = n := by
  obtain ⟨k, rfl⟩ := Int.eq_ofNat_of_zero_le hn
  have hs : sprintf_d (k : Int) = decimal k k := by
    simp [sprintf_d]
  rw [hs]
  obtain ⟨c, cs, hcs, hc⟩ := decimal_head k k
  have hval := atoi_digits_decimal k k (le_refl k)
  rw [hcs] at hval ⊢
  rw [isdigit_iff] at hc
  have hsp : isspace c = false := by
    simp [isspace]
    omega
  have h45 : c ≠ 45 := by omega
  have h43 : c ≠ 43 := by omega
  simp only [atoi, hsp, atoi_signed, h45, h43, if_false, Bool.false_eq_true]
  rw [hval]

/-- C13: for every `local_capacity` value `n >= 0`, `atoi` reads the frame
that `"%d"` prints back to exactly `n`, and a broker that receives the state
message with this frame leaves its dispatch with `cloud_capacity = n`. -/
theorem capacity_frame_roundtrip (cfg : Config) (n : Int) (hn : 0 ≤ n) (w : World)
    (peer : Frame) (more : List (Frame × Frame))
    (hs : w.statefe_in = (peer, sprintf_d n) :: more) :
    atoi (sprintf_d n) = n ∧
      primary_dispatch cfg w (some .statefe) =
        .ok { w with statefe_in := more, cloud_capacity := n } := by
  refine ⟨atoi_sprintf_d n hn, ?_⟩
  simp [primary_dispatch, recv_reply, route_reply_none, recv_state, hs, recv_monitor,
    atoi_c_string, atoi_sprintf_d n hn]

theorem capacity_frame_roundtrip_witness :
    (0 : Int) ≤ 120 ∧ sprintf_d 120 = [49, 50, 48] ∧
      capacity_120_waiting.statefe_in = ([66], sprintf_d 120) :: [] ∧
      atoi (sprintf_d 120) = 120 ∧
      primary_dispatch cfgAB capacity_120_waiting (some .statefe) =
        .ok { capacity_120_waiting with statefe_in := [], cloud_capacity := 120 } :=
  ⟨by decide, by decide, by decide,
   capacity_frame_roundtrip cfgAB 120 (by decide) capacity_120_waiting [66] [] (by decide)⟩


/-- C14, refuted: with `local_capacity = 0` and `cloud_capacity = -1` the sum
is not positive, yet the drain reads the request waiting on the local frontend
and sends it to the cloud backend. -/
theorem drain_runs_on_negative_sum :
    run cfgAB (World.init [5]) negative_cloud_steps = .ok negative_cloud_drained ∧
      primary_dispatch cfgAB
          { World.init [5] with
            statefe_in := [([66], [45, 49])], localfe_in := [request [0, 3] [52, 50]] }
          (some .statefe) = .ok negative_cloud ∧
      ¬ (0 < negative_cloud.local_capacity + negative_cloud.cloud_capacity) ∧
      secondary_drain cfgAB (pending negative_cloud + 1) negative_cloud =
        .ok negative_cloud_drained := by
  decide

/-- C14, amended: the drain loop runs while `local_capacity + cloud_capacity`
is not zero.  In a state where the sum is zero, which with two counters that
are not negative is every state where the sum is not positive, the drain
reads no request and sends nothing: it leaves the state as it is. -/
theorem drain_stops_on_zero_sum (cfg : Config) (fuel : Nat) (w : World)
    (h : w.local_capacity + w.cloud_capacity = 0 ∨
      (0 ≤ w.local_capacity ∧ 0 ≤ w.cloud_capacity ∧
        ¬ (0 < w.local_capacity + w.cloud_capacity))) :
    secondary_drain cfg (fuel + 1) w = .ok w := by
  have h0 : w.local_capacity + w.cloud_capacity = 0 := by
    rcases h with h | ⟨h1, h2, h3⟩
    · exact h
    · omega
  simp [secondary_drain, drain_once, h0]

theorem drain_stops_on_zero_sum_witness :
    (zero_sum_world.local_capacity + zero_sum_world.cloud_capacity = 0 ∨
      (0 ≤ zero_sum_world.local_capacity ∧ 0 ≤ zero_sum_world.cloud_capacity ∧
        ¬ (0 < zero_sum_world.local_capacity + zero_sum_world.cloud_capacity))) ∧
      zero_sum_world.localfe_in ≠ [] ∧
      secondary_drain cfgAB (pending zero_sum_world + 1) zero_sum_world = .ok zero_sum_world :=
  ⟨by decide, by decide,
   drain_stops_on_zero_sum cfgAB (pending zero_sum_world) zero_sum_world (by decide)⟩


/-- The number of messages waiting on the two backends. -/
theorem recv_reply_backends (w w1 : World) (pw : Option Sock) (msg : Option Msg)
    (h : recv_reply w pw = .ok (msg, w1)) :
    w1.local_capacity ≤ w.local_capacity + 1 ∧
      w.localbe_in.length + w.cloudbe_in.length ≤
        w1.localbe_in.length + w1.cloudbe_in.length + 1 := by
  by_cases h1 : pw = some .localbe
  · subst h1
    cases hq : w.localbe_in with
    | nil => simp [recv_reply, zmsg_recv, hq] at h
    | cons m more =>
        rw [recv_reply_localbe w m more hq] at h
        split at h
        · simp at h
        · split at h
          · simp at h
          · split at h <;> simp at h <;> obtain ⟨-, rfl⟩ := h <;> simp <;> omega
  · by_cases h2 : pw = some .cloudbe
    · subst h2
      cases hq : w.cloudbe_in with
      | nil => simp [recv_reply, zmsg_recv, hq] at h
      | cons m more =>
          rw [recv_reply_cloudbe w m more hq] at h
          simp at h
          obtain ⟨-, rfl⟩ := h
          simp [hq]
          omega
    · simp [recv_reply, h1, h2] at h
      obtain ⟨-, rfl⟩ := h
      simp

theorem recv_state_backends (w w1 : World) (pw : Option Sock)
    (h : recv_state w pw = .ok w1) :
    w1.localbe_in = w.localbe_in ∧ w1.cloudbe_in = w.cloudbe_in := by
  unfold recv_state at h
  repeat' (split at h)
  all_goals simp at h
  all_goals subst h
  all_goals simp

theorem recv_monitor_backends (w : World) (pw : Option Sock) :
    (recv_monitor w pw).localbe_in = w.localbe_in ∧
      (recv_monitor w pw).cloudbe_in = w.cloudbe_in := by
  unfold recv_monitor
  repeat' split
  all_goals simp

/-- The primary dispatch reads at most one backend message and raises
`local_capacity` by at most one. -/
theorem primary_dispatch_backends (cfg : Config) (w w1 : World) (pw : Option Sock)
    (h : primary_dispatch cfg w pw = .ok w1) :
    w1.local_capacity ≤ w.local_capacity + 1 ∧
      w.localbe_in.length + w.cloudbe_in.length ≤
        w1.localbe_in.length + w1.cloudbe_in.length + 1 := by
  unfold primary_dispatch at h
  split at h
  · simp at h
  · rename_i msg wa hr
    split at h
    · simp at h
    · rename_i wb hrr
      split at h
      · simp at h
      · rename_i wc hs
        injection h with h
        subst h
        obtain ⟨out, rfl, -⟩ := route_reply_vars _ _ _ _ hrr
        obtain ⟨h1, h2⟩ := recv_reply_backends _ _ _ _ hr
        obtain ⟨-, h3, -⟩ := recv_state_sent _ _ _ hs
        obtain ⟨h4, h5⟩ := recv_state_backends _ _ _ hs
        obtain ⟨-, h6, -⟩ := recv_monitor_sent wc pw
        obtain ⟨h7, h8⟩ := recv_monitor_backends wc pw
        rw [h6, h7, h8, h3, h4, h5]
        exact ⟨h1, h2⟩

theorem drain_once_backends (cfg : Config) (w w1 : World)
    (h : drain_once cfg w = .ok (some w1)) :
    w1.local_capacity ≤ w.local_capacity ∧ w1.localbe_in = w.localbe_in ∧
      w1.cloudbe_in = w.cloudbe_in := by
  rcases drain_once_cases cfg w w1 h with
    ⟨r, rs, wk, ws, -, -, -, rfl⟩ | ⟨r, rs, name, -, -, -, rfl⟩ |
    ⟨c, cs, wk, ws, -, -, -, -, rfl⟩ <;> simp

/-- The drain loop reads no backend and never raises `local_capacity`. -/
theorem secondary_drain_backends (cfg : Config) (fuel : Nat) (w w1 : World)
    (h : secondary_drain cfg fuel w = .ok w1) :
    w1.local_capacity ≤ w.local_capacity ∧ w1.localbe_in = w.localbe_in ∧
      w1.cloudbe_in = w.cloudbe_in := by
  induction fuel generalizing w with
  | zero => simp [secondary_drain] at h
  | succ n ih =>
      unfold secondary_drain at h
      split at h
      · simp at h
      · injection h with h
        subst h
        exact ⟨le_refl _, rfl, rfl⟩
      · rename_i wa hd
        obtain ⟨h1, h2, h3⟩ := drain_once_backends _ _ _ hd
        obtain ⟨h4, h5, h6⟩ := ih _ h
        exact ⟨le_trans h4 h1, h5.trans h2, h6.trans h3⟩

theorem broadcast_backends (cfg : Config) (previous : Int) (w : World) :
    (broadcast cfg previous w).local_capacity = w.local_capacity ∧
      (broadcast cfg previous w).localbe_in = w.localbe_in ∧
      (broadcast cfg previous w).cloudbe_in = w.cloudbe_in ∧
      ∃ tail, (broadcast cfg previous w).sent = w.sent ++ tail ∧
        ∀ p ∈ tail, p.1 = Sock.statebe := by
  unfold broadcast
  split
  · exact ⟨rfl, rfl, rfl, [_], rfl, by simp⟩
  · exact ⟨rfl, rfl, rfl, [], by simp, by simp⟩

/-- C15: a tick that runs to completion reads at most one message from the
two backends together, hands at most one reply to a frontend, and does so
before anything the drain sends; `local_capacity` at the end is at most one
above its value at the start. -/
theorem one_backend_event_per_tick (cfg : Config) (w w1 : World)
    (h : tick cfg w = .ok w1) :
    w1.local_capacity ≤ w.local_capacity + 1 ∧
      w.localbe_in.length + w.cloudbe_in.length ≤
        w1.localbe_in.length + w1.cloudbe_in.length + 1 ∧
      ∃ routed rest, w1.sent = w.sent ++ routed ++ rest ∧ routed.length ≤ 1 ∧
        (∀ p ∈ routed, p.1 = Sock.cloudfe ∨ p.1 = Sock.localfe) ∧
        (∀ p ∈ rest, p.1 = Sock.localbe ∨ p.1 = Sock.cloudbe ∨ p.1 = Sock.statebe) := by
  have key : ∀ (wa wb : World) (routed : List (Sock × Msg)),
      wa.local_capacity ≤ w.local_capacity + 1 →
      w.localbe_in.length + w.cloudbe_in.length ≤
        wa.localbe_in.length + wa.cloudbe_in.length + 1 →
      wa.sent = w.sent ++ routed → routed.length ≤ 1 →
      (∀ p ∈ routed, p.1 = Sock.cloudfe ∨ p.1 = Sock.localfe) →
      secondary_drain cfg (pending wa + 1) wa = .ok wb →
      (broadcast cfg w.local_capacity wb).local_capacity ≤ w.local_capacity + 1 ∧
        w.localbe_in.length + w.cloudbe_in.length ≤
          (broadcast cfg w.local_capacity wb).localbe_in.length +
            (broadcast cfg w.local_capacity wb).cloudbe_in.length + 1 ∧
        ∃ routed rest, (broadcast cfg w.local_capacity wb).sent = w.sent ++ routed ++ rest ∧
          routed.length ≤ 1 ∧
          (∀ p ∈ routed, p.1 = Sock.cloudfe ∨ p.1 = Sock.localfe) ∧
          (∀ p ∈ rest, p.1 = Sock.localbe ∨ p.1 = Sock.cloudbe ∨ p.1 = Sock.statebe) := by
    intro wa wb routed hlc hbe hsent hlen hfront hd
    obtain ⟨h1, h2, h3⟩ := secondary_drain_backends _ _ _ _ hd
    obtain ⟨out, ho, hback⟩ := secondary_drain_sent _ _ _ _ hd
    obtain ⟨h4, h5, h6, tail, ht, hstate⟩ := broadcast_backends cfg w.local_capacity wb
    rw [h4, h5, h6, h2, h3]
    refine ⟨by omega, hbe, routed, out ++ tail, ?_, hlen, hfront, ?_⟩
    · rw [ht, ho, hsent]
      simp
    · intro p hp
      rcases List.mem_append.1 hp with hp | hp
      · rcases hback p hp with hq | hq
        · exact Or.inl hq
        · exact Or.inr (Or.inl hq)
      · exact Or.inr (Or.inr (hstate p hp))
  unfold tick at h
  split at h
  · split at h
    · injection h with h
      subst h
      exact ⟨by omega, by omega, [], [], by simp, by simp, by simp, by simp⟩
    · split at h
      · simp at h
      · rename_i wb hd
        injection h with h
        subst h
        exact key w wb [] (by omega) (by omega) (by simp) (by simp) (by simp) hd
  · split at h
    · simp at h
    · rename_i wa hp
      split at h
      · simp at h
      · rename_i wb hd
        injection h with h
        subst h
        obtain ⟨routed, hr1, hr2, hr3⟩ := primary_dispatch_sent _ _ _ _ hp
        obtain ⟨hb1, hb2⟩ := primary_dispatch_backends _ _ _ _ hp
        exact key wa wb routed hb1 hb2 hr1 hr2 hr3 hd

theorem one_backend_event_per_tick_witness :
    tick cfgAB one_ready_waiting = .ok one_ready_read ∧
      (one_ready_read.local_capacity ≤ one_ready_waiting.local_capacity + 1 ∧
      one_ready_waiting.localbe_in.length + one_ready_waiting.cloudbe_in.length ≤
        one_ready_read.localbe_in.length + one_ready_read.cloudbe_in.length + 1 ∧
      ∃ routed rest, one_ready_read.sent = one_ready_waiting.sent ++ routed ++ rest ∧
        routed.length ≤ 1 ∧
        (∀ p ∈ routed, p.1 = Sock.cloudfe ∨ p.1 = Sock.localfe) ∧
        (∀ p ∈ rest, p.1 = Sock.localbe ∨ p.1 = Sock.cloudbe ∨ p.1 = Sock.statebe)) :=
  ⟨by decide, one_backend_event_per_tick cfgAB one_ready_waiting one_ready_read (by decide)⟩


theorem recv_state_other (w : World) (pw : Option Sock) (h : pw ≠ some .statefe) :
    recv_state w pw = .ok w := by
  simp [recv_state, h]

/-- Only the ingest of a state message changes `cloud_capacity` in the
primary dispatch. -/
theorem primary_dispatch_cloud_capacity (cfg : Config) (w w1 : World) (pw : Option Sock)
    (h : primary_dispatch cfg w pw = .ok w1) (hpw : pw ≠ some .statefe) :
    w1.cloud_capacity = w.cloud_capacity := by
  unfold primary_dispatch at h
  split at h
  · simp at h
  · rename_i msg wa hr
    split at h
    · simp at h
    · rename_i wb hrr
      rw [recv_state_other wb pw hpw] at h
      simp only [Except.ok.injEq] at h
      subst h
      obtain ⟨out, rfl, -⟩ := route_reply_vars _ _ _ _ hrr
      rw [(recv_monitor_sent _ pw).2.2.1]
      exact (recv_reply_vars _ _ _ _ hr).1

/-- Only the ingest of a state message changes `cloud_capacity` in a tick. -/
theorem tick_cloud_capacity (cfg : Config) (w w1 : World) (h : tick cfg w = .ok w1)
    (hpw : zpoller_wait w primary_readers ≠ some .statefe) :
    w1.cloud_capacity = w.cloud_capacity := by
  unfold tick at h
  split at h
  · split at h
    · injection h with h
      subst h
      rfl
    · split at h
      · simp at h
      · rename_i wb hd
        injection h with h
        subst h
        rw [(broadcast_cloud_vars cfg _ wb).1, (secondary_drain_cloud_vars _ _ _ _ hd).1]
  · rename_i pw hpoll
    split at h
    · simp at h
    · rename_i wa hp
      split at h
      · simp at h
      · rename_i wb hd
        injection h with h
        subst h
        rw [(broadcast_cloud_vars cfg _ wb).1, (secondary_drain_cloud_vars _ _ _ _ hd).1]
        exact primary_dispatch_cloud_capacity cfg w wa _ hp (by rw [← hpoll]; exact hpw)

/-- C18, amended: the drain loop never changes `cloud_capacity`, and in a
tick it changes only when the primary wait reports the state frontend.  In a
tick whose primary wait reports a socket and whose drain begins, after the
primary dispatch, with `local_capacity == 0` and `cloud_capacity > 0`, with at
least one peer configured, every request waiting on the local frontend is
forwarded to the cloud backend under the name of a configured peer, however
many there are, and `cloud_capacity` is afterwards what it was when the drain
began. -/
theorem drain_keeps_cloud_capacity (cfg : Config) (w wd : World) (pw : Sock)
    (hpoll : zpoller_wait w primary_readers = some pw)
    (hd : primary_dispatch cfg w (some pw) = .ok wd)
    (hp : cfg.peers ≠ []) (hlc : wd.local_capacity = 0) (hcc : 0 < wd.cloud_capacity) :
    (∀ fuel w0 w1, secondary_drain cfg fuel w0 = .ok w1 →
      w1.cloud_capacity = w0.cloud_capacity) ∧
    (∀ w0 w1, tick cfg w0 = .ok w1 → w1.cloud_capacity ≠ w0.cloud_capacity →
      zpoller_wait w0 primary_readers = some Sock.statefe) ∧
    ∃ names w1, names.length = wd.localfe_in.length ∧ (∀ n ∈ names, n ∈ cfg.peers) ∧
      tick cfg w = .ok w1 ∧ w1.cloud_capacity = wd.cloud_capacity ∧
      w1.local_capacity = 0 ∧ w1.localfe_in = [] ∧
      ∃ tail, (∀ p ∈ tail, p.1 = Sock.statebe) ∧
        w1.sent = wd.sent ++
          List.zipWith (fun n r => (Sock.cloudbe, n :: RouterMsg.frames r))
            names wd.localfe_in ++ tail := by
  refine ⟨fun fuel w0 w1 h => (secondary_drain_cloud_vars cfg fuel w0 w1 h).1, ?_, ?_⟩
  · intro w0 w1 h hne
    by_contra hpw
    exact hne (tick_cloud_capacity cfg w0 w1 h hpw)
  · obtain ⟨names, hlen, hmem, hdrain⟩ :=
      secondary_drain_overflow cfg hp wd.localfe_in (pending wd + 1) wd
        (by unfold pending; omega) rfl hlc (by omega)
    obtain ⟨h1, -, -, tail, ht, hstate⟩ :=
      broadcast_backends cfg w.local_capacity
        { wd with localfe_in := [], random_in := wd.random_in.drop wd.localfe_in.length,
                  sent := wd.sent ++
                    List.zipWith (fun n r => (Sock.cloudbe, n :: RouterMsg.frames r))
                      names wd.localfe_in }
    refine ⟨names, _, hlen, hmem, ?_, ?_, ?_, ?_, tail, hstate, ht⟩
    · simp only [tick, hpoll, hd, hdrain]
    · exact (broadcast_cloud_vars cfg _ _).1
    · rw [h1]
      exact hlc
    · unfold broadcast
      split <;> rfl

theorem drain_keeps_cloud_capacity_witness :
    zpoller_wait two_overflow_waiting primary_readers = some Sock.monitor ∧
      tick cfgAB two_overflow_waiting = .ok two_overflow_forwarded ∧
      (1 : Int) < (two_overflow_waiting.localfe_in.length : Int) ∧
      ((∀ fuel w0 w1, secondary_drain cfgAB fuel w0 = .ok w1 →
        w1.cloud_capacity = w0.cloud_capacity) ∧
      (∀ w0 w1, tick cfgAB w0 = .ok w1 → w1.cloud_capacity ≠ w0.cloud_capacity →
        zpoller_wait w0 primary_readers = some Sock.statefe) ∧
      ∃ names w1,
        names.length = two_overflow_dispatched.localfe_in.length ∧
        (∀ n ∈ names, n ∈ cfgAB.peers) ∧
        tick cfgAB two_overflow_waiting = .ok w1 ∧
        w1.cloud_capacity = two_overflow_dispatched.cloud_capacity ∧
        w1.local_capacity = 0 ∧ w1.localfe_in = [] ∧
        ∃ tail, (∀ p ∈ tail, p.1 = Sock.statebe) ∧
          w1.sent = two_overflow_dispatched.sent ++
            List.zipWith (fun n r => (Sock.cloudbe, n :: RouterMsg.frames r)) names
              two_overflow_dispatched.localfe_in ++ tail) :=
  ⟨by decide, by decide, by decide,
   drain_keeps_cloud_capacity cfgAB two_overflow_waiting
     two_overflow_dispatched Sock.monitor
     (by decide) (by decide) (by decide) (by decide) (by decide)⟩

end Peering3

namespace LazyPirate

open Peering3

theorem next_request_budget (c : Client) (hr : c.running = true)
    (h3 : c.retries_left = REQUEST_RETRIES) :
    (next_request c).running = true ∧ (next_request c).retries_left = REQUEST_RETRIES := by
  have h30 : REQUEST_RETRIES ≠ 0 := by decide
  have : c.retries_left ≠ 0 := by
    rw [h3]
    exact h30
  unfold next_request
  rw [if_pos this]
  exact ⟨hr, h3⟩

theorem next_request_stop (c : Client) (h0 : c.retries_left = 0) :
    (next_request c).running = false ∧ (next_request c).retries_left = 0 := by
  simp [next_request, h0]

/-- One poll result keeps budget and count together. -/
theorem on_poll_budget (c : Client) (count : Nat) (e : Poll) (hr : c.running = true)
    (hb : Budget c count) :
    Budget (on_poll c e)
      (match e with
       | .timeout => count + 1
       | .reply frame => if atoi (c_string frame) = c.sequence then 0 else count) := by
  rcases hb with ⟨-, hk, hl⟩ | ⟨hs, -, -⟩
  · cases e with
    | reply frame =>
        by_cases hv : atoi (c_string frame) = c.sequence
        · simp only [on_poll, hv, if_true]
          obtain ⟨h1, h2⟩ :=
            next_request_budget { c with retries_left := REQUEST_RETRIES } hr rfl
          exact Or.inl ⟨h1, by omega, by simpa using h2⟩
        · simp only [on_poll, hv, if_false]
          exact Or.inl ⟨hr, hk, hl⟩
    | timeout =>
        by_cases h2 : count = 2
        · subst h2
          have h0 : c.retries_left - 1 = 0 := by
            rw [hl]
            decide
          obtain ⟨h1, h2⟩ :=
            next_request_stop { c with retries_left := c.retries_left - 1 } h0
          simp only [on_poll]
          rw [if_pos h0]
          exact Or.inr ⟨h1, rfl, h2⟩
        · have h0 : c.retries_left - 1 ≠ 0 := by
            rw [hl]
            unfold REQUEST_RETRIES
            omega
          simp only [on_poll, h0, if_false]
          refine Or.inl ⟨hr, by omega, ?_⟩
          simp only [hl]
          push_cast
          ring
  · rw [hr] at hs
    exact absurd hs (by decide)

theorem run_budget (evs : List Poll) :
    ∀ (c : Client) (count : Nat), Budget c count →
      Budget (run c evs) (timeouts_since_valid c count evs) := by
  induction evs with
  | nil =>
      intro c count hb
      exact hb
  | cons e more ih =>
      intro c count hb
      by_cases hr : c.running = true
      · have hstep := on_poll_budget c count e hr hb
        simp only [run, timeouts_since_valid, hr, if_true]
        cases e with
        | timeout => exact ih _ _ hstep
        | reply frame =>
            by_cases hv : atoi (c_string frame) = c.sequence
            · simp only [hv, if_true] at hstep ⊢
              exact ih _ _ hstep
            · simp only [hv, if_false] at hstep ⊢
              exact ih _ _ hstep
      · simp only [run, timeouts_since_valid, hr]
        exact hb

theorem start_budget : Budget start 0 := by
  refine Or.inl ⟨by decide, by decide, by decide⟩

/-- C16: absent interruption, after every sequence of poll results
`retries_left` is `REQUEST_RETRIES` minus the number of timeouts since the
last valid reply (or since start), and the client has left its loop exactly
when that number has reached three.  A reply whose number is the current
sequence number puts `retries_left` back to three.  From a request just sent
with the full budget, two timeouts resend it on a new socket each and leave
one try, and the third timeout ends the program without another send: the
request has gone out three times. -/
theorem retries_left_counts_timeouts (evs : List Poll) :
    (run start evs).retries_left =
        REQUEST_RETRIES - (timeouts_since_valid start 0 evs : Int) ∧
      ((run start evs).running = false ↔ timeouts_since_valid start 0 evs = 3) ∧
      (∀ (c : Client) (frame : Frame), c.running = true →
        atoi (c_string frame) = c.sequence →
        (on_poll c (.reply frame)).retries_left = REQUEST_RETRIES ∧
          (on_poll c (.reply frame)).running = true ∧
          (on_poll c (.reply frame)).sequence = c.sequence + 1) ∧
      (∀ c : Client, c.retries_left ≠ 0 →
        (next_request c).sent = c.sent ++ [(c.socket, (next_request c).request)]) ∧
      (∀ c : Client, c.running = true → c.retries_left = REQUEST_RETRIES →
        run c [.timeout, .timeout] =
            { c with retries_left := 1, socket := c.socket + 2,
                     sent := c.sent ++ [(c.socket + 1, c.request), (c.socket + 2, c.request)] } ∧
          run c [.timeout, .timeout, .timeout] =
            { c with retries_left := 0, running := false, socket := c.socket + 2,
                     sent := c.sent ++
                       [(c.socket + 1, c.request), (c.socket + 2, c.request)] }) := by
  have hb := run_budget evs start 0 start_budget
  refine ⟨?_, ?_, ?_, ?_, ?_⟩
  · rcases hb with ⟨-, -, hl⟩ | ⟨-, hk, hl⟩
    · exact hl
    · rw [hl, hk]
      decide
  · rcases hb with ⟨hr, hk, -⟩ | ⟨hr, hk, -⟩
    · constructor
      · intro h
        rw [hr] at h
        exact absurd h (by decide)
      · intro h
        omega
    · exact ⟨fun _ => hk, fun _ => hr⟩
  · intro c frame hr hv
    simp only [on_poll, hv, if_true]
    obtain ⟨h1, h2⟩ := next_request_budget { c with retries_left := REQUEST_RETRIES } hr rfl
    refine ⟨h2, h1, ?_⟩
    simp [next_request, REQUEST_RETRIES]
  · intro c hne
    simp [next_request, hne]
  · intro c hr h3
    constructor
    · simp [run, on_poll, hr, h3, REQUEST_RETRIES, List.append_assoc]
    · simp [run, on_poll, hr, h3, REQUEST_RETRIES, next_request, List.append_assoc]

theorem retries_left_counts_timeouts_witness :
    run start lost_server =
        { sequence := 2, retries_left := 0, request := [50], socket := 3,
          sent := [(0, [49]), (1, [49]), (1, [50]), (2, [50]), (3, [50])],
          running := false } ∧
      timeouts_since_valid start 0 lost_server = 3 ∧
      (run start lost_server).retries_left =
        REQUEST_RETRIES - (timeouts_since_valid start 0 lost_server : Int) ∧
      ((run start lost_server).running = false ↔
        timeouts_since_valid start 0 lost_server = 3) :=
  ⟨by decide, by decide, (retries_left_counts_timeouts lost_server).1,
   (retries_left_counts_timeouts lost_server).2.1⟩

end LazyPirate

namespace SimplePirate

open Peering3

/-- What the backend branch does when it does not stop the program. -/
theorem on_backend_ok (q q1 : Queue) (h : on_backend q = .ok q1) :
    ∃ m more, q.backend_in = m :: more ∧ q1.backend_in = more ∧
      q1.workers = q.workers ++ [m.identity] ∧ q1.frontend_in = q.frontend_in ∧
      (q1.sent = q.sent ∨ q1.sent = q.sent ++ [(Side.frontend, m.body)]) := by
  unfold on_backend at h
  cases hq : q.backend_in with
  | nil => simp [hq] at h
  | cons m more =>
      simp only [hq, zmsg_unwrap_frames, zlist_append] at h
      refine ⟨m, more, rfl, ?_⟩
      split at h
      · simp at h
      · split at h
        · simp at h
        · split at h <;> simp at h <;> subst h <;> simp

theorem on_backend_null_worker (q : Queue) : on_backend q ≠ .error .null_worker := by
  intro h
  unfold on_backend at h
  dsimp only at h
  repeat' (split at h)
  all_goals simp at h

theorem polls_frontend_iff (q : Queue) : polls_frontend q = true ↔ q.workers ≠ [] := by
  unfold polls_frontend
  cases q.workers <;> simp

theorem which_frontend (q : Queue) (h : which q = some .frontend) :
    q.workers ≠ [] ∧ q.frontend_in ≠ [] := by
  unfold which at h
  split at h
  · simp at h
  · split at h
    · rename_i hp
      simp only [Bool.and_eq_true, Bool.not_eq_true', List.isEmpty_eq_false] at hp
      exact ⟨(polls_frontend_iff q).1 hp.1, by
        intro hf
        rw [hf] at hp
        simp at hp⟩
    · simp at h

/-- The frontend branch on a queue that has a worker at its head. -/
theorem on_frontend_head (q : Queue) (r : RouterMsg) (rs : List RouterMsg) (wk : Frame)
    (ws : List Frame) (hf : q.frontend_in = r :: rs) (hw : q.workers = wk :: ws) :
    on_frontend q =
      .ok { q with frontend_in := rs, workers := ws,
                   sent := q.sent ++ [(Side.backend, wk :: [] :: r.frames)] } := by
  simp [on_frontend, hf, hw, zlist_pop, zmsg_wrap]

/-- C17: in both Simple Pirate brokers the frontend is polled only when the
worker queue is not empty at the start of the iteration; the iteration never
stops in `zmsg_wrap (msg, NULL)`; and whenever it reads a client request, the
queue had a worker at its head when the iteration began and the request is
sent to the backend wrapped with that worker. -/
theorem frontend_read_only_with_worker (q : Queue) :
    (polls_frontend q = true ↔ q.workers ≠ []) ∧
      (which q = some .frontend → q.workers ≠ []) ∧
      spqueue_API4_tick q ≠ .error .null_worker ∧
      (∀ q1, spqueue_API4_tick q = .ok q1 → q1.frontend_in ≠ q.frontend_in →
        ∃ r rs wk ws, q.frontend_in = r :: rs ∧ q.workers = wk :: ws ∧
          q1 = { q with frontend_in := rs, workers := ws,
                        sent := q.sent ++ [(Side.backend, wk :: [] :: r.frames)] }) ∧
      spqueue_tick q ≠ .error .null_worker ∧
      (∀ q1, spqueue_tick q = .ok q1 → q1.frontend_in ≠ q.frontend_in →
        ∃ r rs wk ws, q.frontend_in = r :: rs ∧ q.workers = wk :: ws ∧
          q1.frontend_in = rs ∧
          (q1.workers = ws ∨ ∃ identity, q1.workers = ws ++ [identity]) ∧
          ∃ before, q1.sent = before ++ [(Side.backend, wk :: [] :: r.frames)]) := by
  refine ⟨polls_frontend_iff q, fun h => (which_frontend q h).1, ?_, ?_, ?_, ?_⟩
  · intro h
    unfold spqueue_API4_tick at h
    split at h
    · simp at h
    · exact on_backend_null_worker q h
    · rename_i hw
      obtain ⟨hwk, hfr⟩ := which_frontend q hw
      cases hf : q.frontend_in with
      | nil => exact hfr hf
      | cons r rs =>
          cases hws : q.workers with
          | nil => exact hwk hws
          | cons wk ws => simp [hf, hws, zlist_pop] at h
  · intro q1 h hne
    unfold spqueue_API4_tick at h
    split at h
    · injection h with h
      subst h
      exact absurd rfl hne
    · obtain ⟨m, more, -, -, -, hfe, -⟩ := on_backend_ok q q1 h
      exact absurd hfe hne
    · rename_i hw
      obtain ⟨hwk, hfr⟩ := which_frontend q hw
      cases hf : q.frontend_in with
      | nil => exact absurd hf hfr
      | cons r rs =>
          cases hws : q.workers with
          | nil => exact absurd hws hwk
          | cons wk ws =>
              simp [hf, hws, zlist_pop, zmsg_wrap] at h
              exact ⟨r, rs, wk, ws, rfl, rfl, h.symm⟩
  · intro h
    unfold spqueue_tick at h
    dsimp only at h
    split at h
    · simp at h
    · split at h
      · rename_i e hb
        injection h with h
        subst h
        split at hb
        · exact on_backend_null_worker q hb
        · simp at hb
      · rename_i qa hb
        split at h
        · rename_i hfr
          simp only [Bool.and_eq_true, Bool.not_eq_true', List.isEmpty_eq_false] at hfr
          obtain ⟨hp, hfne⟩ := hfr
          have hwk := (polls_frontend_iff q).1 hp
          obtain ⟨wk, ws, hws⟩ : ∃ wk ws, q.workers = wk :: ws := by
            cases hq : q.workers with
            | nil => exact absurd hq hwk
            | cons wk ws => exact ⟨wk, ws, rfl⟩
          split at hb
          · obtain ⟨m, more, -, -, hwa, -, -⟩ := on_backend_ok q qa hb
            unfold on_frontend at h
            rw [hwa, hws] at h
            split at h
            · simp at h
            · simp [zlist_pop] at h
          · injection hb with hb
            subst hb
            unfold on_frontend at h
            rw [hws] at h
            split at h
            · simp at h
            · simp [zlist_pop] at h
        · simp at h
  · intro q1 h hne
    unfold spqueue_tick at h
    dsimp only at h
    split at h
    · injection h with h
      subst h
      exact absurd rfl hne
    · split at h
      · simp at h
      · rename_i qa hb
        split at h
        · rename_i hfr
          simp only [Bool.and_eq_true, Bool.not_eq_true', List.isEmpty_eq_false] at hfr
          obtain ⟨hp, hfne⟩ := hfr
          have hwk := (polls_frontend_iff q).1 hp
          obtain ⟨wk, ws, hws⟩ : ∃ wk ws, q.workers = wk :: ws := by
            cases hq : q.workers with
            | nil => exact absurd hq hwk
            | cons wk ws => exact ⟨wk, ws, rfl⟩
          obtain ⟨r, rs, hf⟩ : ∃ r rs, q.frontend_in = r :: rs := by
            cases hq : q.frontend_in with
            | nil =>
                rw [hq] at hfne
                simp at hfne
            | cons r rs => exact ⟨r, rs, rfl⟩
          refine ⟨r, rs, wk, ws, hf, hws, ?_⟩
          split at hb
          · obtain ⟨m, more, -, -, hwa, hfa, -⟩ := on_backend_ok q qa hb
            rw [on_frontend_head qa r rs wk (ws ++ [m.identity]) (by rw [hfa, hf])
              (by rw [hwa, hws]; rfl)] at h
            injection h with h
            subst h
            exact ⟨rfl, Or.inr ⟨m.identity, rfl⟩, qa.sent, rfl⟩
          · injection hb with hb
            subst hb
            rw [on_frontend_head q r rs wk ws hf hws] at h
            injection h with h
            subst h
            exact ⟨rfl, Or.inl rfl, q.sent, rfl⟩
        · injection h with h
          subst h
          split at hb
          · obtain ⟨m, more, -, -, -, hfa, -⟩ := on_backend_ok q _ hb
            exact absurd hfa hne
          · injection hb with hb
            subst hb
            exact absurd rfl hne

theorem frontend_read_only_with_worker_witness :
    spqueue_tick busy_queue =
        .ok { workers := [[8], [9]], backend_in := [], frontend_in := [],
              sent := [(.frontend, [[0, 3], [], [79, 75]]),
                       (.backend, [[7], [], [0, 4], [], [52, 50]])] } ∧
      spqueue_API4_tick { busy_queue with backend_in := [] } =
        .ok { workers := [[8]], backend_in := [], frontend_in := [],
              sent := [(.backend, [[7], [], [0, 4], [], [52, 50]])] } ∧
      spqueue_API4_tick busy_queue ≠ .error .null_worker ∧
      spqueue_tick busy_queue ≠ .error .null_worker :=
  ⟨by decide, by decide, (frontend_read_only_with_worker busy_queue).2.2.1,
   (frontend_read_only_with_worker busy_queue).2.2.2.2.1⟩

end SimplePirate

namespace Peering3

/-- C2, amended: in every state the broker passes through, whenever the cloud
frontend and the local frontend both have a request ready and
`local_capacity > 0`, the request a pass of the drain loop reads and
dispatches is the one of the local frontend, which goes to the worker at the
head of the queue while the request of the cloud frontend stays unread; the
pass reads it if `local_capacity + cloud_capacity` is not zero and reads
nothing if it is.  A request of the cloud frontend is read only when
`local_capacity > 0` and the local frontend has none ready. -/
theorem local_frontend_read_first (cfg : Config) (w : World) (hr : Reachable cfg w) :
    (∀ r rs c cs, w.localfe_in = r :: rs → w.cloudfe_in = c :: cs →
      0 < w.local_capacity →
      (w.local_capacity + w.cloud_capacity ≠ 0 →
        ∃ wk ws, w.workers = wk :: ws ∧
          drain_once cfg w =
            .ok (some { w with localfe_in := rs, workers := ws,
                               local_capacity := w.local_capacity - 1,
                               sent := w.sent ++ [(Sock.localbe, wk :: [] :: r.frames)] })) ∧
      (w.local_capacity + w.cloud_capacity = 0 → drain_once cfg w = .ok none)) ∧
    (∀ w1, drain_once cfg w = .ok (some w1) → w1.cloudfe_in ≠ w.cloudfe_in →
      0 < w.local_capacity ∧ w.localfe_in = []) := by
  have hb := reachable_balanced cfg w hr
  constructor
  · intro r rs c cs hq _ hlc
    constructor
    · intro hsum
      have hne : w.local_capacity ≠ 0 := by omega
      obtain ⟨wk, ws, hw⟩ := balanced_head w hb hne
      refine ⟨wk, ws, hw, ?_⟩
      rw [drain_once_localfe cfg w r rs hsum hq,
        place_request_local cfg r.frames _ wk ws (by simpa using hne) (by simpa using hw)]
    · intro hsum
      simp [drain_once, hsum]
  · intro w1 h hne
    rcases drain_once_cases cfg w w1 h with
      ⟨r, rs, wk, ws, -, -, -, rfl⟩ | ⟨r, rs, name, -, -, -, rfl⟩ |
      ⟨c, cs, wk, ws, hq, -, hlc, -, rfl⟩
    · exact absurd rfl hne
    · exact absurd rfl hne
    · refine ⟨?_, hq⟩
      unfold Balanced at hb
      omega

theorem local_frontend_read_first_witness :
    Reachable cfgAB both_ready ∧
      both_ready.localfe_in = request [0, 3] [52, 50] :: [] ∧
      both_ready.cloudfe_in = peer_request_B :: [] ∧
      (0 : Int) < both_ready.local_capacity ∧
      both_ready.local_capacity + both_ready.cloud_capacity ≠ 0 ∧
      ∃ wk ws, both_ready.workers = wk :: ws ∧
        drain_once cfgAB both_ready =
          .ok (some { both_ready with
                      localfe_in := [], workers := ws,
                      local_capacity := both_ready.local_capacity - 1,
                      sent := both_ready.sent ++
                        [(Sock.localbe, wk :: [] :: (request [0, 3] [52, 50]).frames)] }) :=
  ⟨reachable_of_run cfgAB both_ready_steps _ _ (Reachable.init []) (by decide),
   by decide, by decide, by decide, by decide,
   ((local_frontend_read_first cfgAB both_ready
      (reachable_of_run cfgAB both_ready_steps _ _ (Reachable.init []) (by decide))).1
      (request [0, 3] [52, 50]) [] peer_request_B [] (by decide) (by decide) (by decide)).1
     (by decide)⟩

/-- C18, refuted: at the start of the tick `local_capacity` is 0 and
`cloud_capacity` is 3, a READY waits on the local backend and two requests on
the local frontend; the tick queues the worker first and then sends the first
request to it on the local backend, so only the second goes to the cloud
backend. -/
theorem tick_serves_locally_first :
    run cfgAB (World.init [5]) ready_and_requests_steps = .ok ready_and_requests ∧
      ready_and_requests.local_capacity = 0 ∧ ready_and_requests.cloud_capacity = 3 ∧
      ready_and_requests.localfe_in =
        [request [0, 3] [52, 50], request [0, 4] [52, 51]] ∧
      tick cfgAB ready_and_requests = .ok ready_and_requests_served ∧
      ready_and_requests_served.sent =
        [(Sock.localbe, [[7], [], [0, 3], [], [52, 50]]),
         (Sock.cloudbe, [[66], [0, 4], [], [52, 51]])] := by
  decide

end Peering3
